import Mathlib

/-!
# Verification of the tile-matching rule engine

Shallow embedding of the puzzle engine found in `app/game.js` and the game
store (`generateGameBoard`, `getBoardDimensions`, `GameUtils`).

Modelling conventions:
* A tile kind is a `Nat` (the index of the emoji in the `TILE_KINDS` /
  `emojiTiles` array; the strings in that array are pairwise distinct, so
  string equality coincides with index equality).
* A cell is `Option Nat` (`none` models the empty string `''` / a falsy cell).
* A board is a `List (List (Option Nat))`, row major, as in the source.
* Path coordinates are `Int`, because the two-corner search of `findPath`
  probes cells one step outside the board (`row = -1`, `col = cols`, ...).
* `Math.random()`-driven choices are modelled by an injected list of natural
  numbers (`js`): the JS expression `Math.floor(Math.random() * (i + 1))`
  becomes `j % (i + 1)` for the next number `j` of the list (an arbitrary
  value in `[0, i]`, exactly the values the JS expression can take).
* In `game.js`, `findPath`'s third parameter defaults to the enclosing
  component's state variable `board`.  Functions that call `findPath`
  without that argument (`isBoardSolvable` line 101,
  `findBestPositionsForPair` line 278) therefore path-check against the
  component's current board, not against the board they were handed.  The
  embedding makes this explicit via a `stateB` parameter.
-/

namespace LinkGame

/-- A tile kind: index into the emoji array. -/
abbrev Tile := Nat

/-- A cell of the board: `none` is the empty string `''` of the source. -/
abbrev Cell := Option Tile

/-- A board, row major, as the nested JS array. -/
abbrev Board := List (List Cell)

/-- Number of rows, `board.length`. -/
def rowsOf (b : Board) : Nat := b.length

/-- Number of columns, `board[0].length`. -/
def colsOf (b : Board) : Nat := (b.headD []).length

/-- `isEmpty(row, col, boardToCheck)` from game.js: out-of-bounds cells count
as empty, otherwise a cell is empty iff it holds no tile (falsy `''`). -/
def isEmptyAt (b : Board) (r c : Int) : Bool :=
  if r < 0 || (rowsOf b : Int) ≤ r || c < 0 || (colsOf b : Int) ≤ c then true
  else ((b.getD r.toNat []).getD c.toNat none).isNone

/-- The coordinates strictly between `a` and `b` (in increasing order):
the cells a straight segment passes through. -/
def betweenInts (a b : Int) : List Int :=
  (List.range (max a b - min a b - 1).toNat).map (fun i => min a b + 1 + i)

/-- `findStraightPath` from game.js: a horizontal or vertical segment is valid
iff every cell strictly between the endpoints is empty; the returned path is
the list of those intervening cells. -/
def findStraightPath (b : Board) (r1 c1 r2 c2 : Int) : Option (List (Int × Int)) :=
  if r1 = r2 then
    let cells := (betweenInts c1 c2).map (fun c => (r1, c))
    if cells.all (fun p => isEmptyAt b p.1 p.2) then some cells else none
  else if c1 = c2 then
    let cells := (betweenInts r1 r2).map (fun r => (r, c1))
    if cells.all (fun p => isEmptyAt b p.1 p.2) then some cells else none
  else none

/-- `checkLPath` from game.js: the corner must be empty and both straight
segments valid; the combined path is `segment1 ++ corner ++ segment2`. -/
def checkLPath (b : Board) (r1 c1 rMid cMid r2 c2 : Int) : Option (List (Int × Int)) :=
  if isEmptyAt b rMid cMid then
    match findStraightPath b r1 c1 rMid cMid, findStraightPath b rMid cMid r2 c2 with
    | some p1, some p2 => some (p1 ++ (rMid, cMid) :: p2)
    | _, _ => none
  else none

/-- `findOneCornerPath` from game.js: try corner `(r1, c2)` first, then
corner `(r2, c1)`. -/
def findOneCornerPath (b : Board) (r1 c1 r2 c2 : Int) : Option (List (Int × Int)) :=
  match checkLPath b r1 c1 r1 c2 r2 c2 with
  | some p => some p
  | none => checkLPath b r1 c1 r2 c1 r2 c2

/-- `checkTwoCornerPath` from game.js: the mid cell must be empty, then the
three decompositions straight+straight, L+straight, straight+L are tried in
that order. -/
def checkTwoCornerPath (b : Board) (r1 c1 rMid cMid r2 c2 : Int) :
    Option (List (Int × Int)) :=
  if isEmptyAt b rMid cMid then
    match findStraightPath b r1 c1 rMid cMid, findStraightPath b rMid cMid r2 c2 with
    | some p1, some p2 => some (p1 ++ (rMid, cMid) :: p2)
    | _, _ =>
      match findOneCornerPath b r1 c1 rMid cMid, findStraightPath b rMid cMid r2 c2 with
      | some p1, some p2 => some (p1 ++ (rMid, cMid) :: p2)
      | _, _ =>
        match findStraightPath b r1 c1 rMid cMid, findOneCornerPath b rMid cMid r2 c2 with
        | some p1, some p2 => some (p1 ++ (rMid, cMid) :: p2)
        | _, _ => none
  else none

/-- The in-board mid-point candidates of `findTwoCornerPath`, row major. -/
def inBoardMids (b : Board) : List (Int × Int) :=
  (List.range (rowsOf b)).flatMap (fun r =>
    (List.range (colsOf b)).map (fun c => ((r : Int), (c : Int))))

/-- The four off-board strips probed by `findTwoCornerPath`, in source order:
one row above (cols `-1..cols`), one row below, one column to the left
(rows `-1..rows`), one column to the right. -/
def stripMids (b : Board) : List (Int × Int) :=
  ((List.range (colsOf b + 2)).map (fun c => ((-1 : Int), (c : Int) - 1))) ++
  ((List.range (colsOf b + 2)).map (fun c => ((rowsOf b : Int), (c : Int) - 1))) ++
  ((List.range (rowsOf b + 2)).map (fun r => ((r : Int) - 1, (-1 : Int)))) ++
  ((List.range (rowsOf b + 2)).map (fun r => ((r : Int) - 1, (colsOf b : Int))))

/-- `findTwoCornerPath` from game.js: every empty in-board cell (row major)
is tried as mid point, then the four off-board strips. -/
def findTwoCornerPath (b : Board) (r1 c1 r2 c2 : Int) : Option (List (Int × Int)) :=
  match (inBoardMids b).findSome? (fun m =>
      if isEmptyAt b m.1 m.2 then checkTwoCornerPath b r1 c1 m.1 m.2 r2 c2 else none) with
  | some p => some p
  | none => (stripMids b).findSome? (fun m => checkTwoCornerPath b r1 c1 m.1 m.2 r2 c2)

/-- `findPath` from game.js: straight, then one corner, then two corners;
the result carries the turn count (`0`, `1`, `2`) and the waypoints
(`none` models `{isValid: false, turns: -1, path: []}`). -/
def findPath (b : Board) (r1 c1 r2 c2 : Int) : Option (Nat × List (Int × Int)) :=
  match findStraightPath b r1 c1 r2 c2 with
  | some p => some (0, p)
  | none =>
    match findOneCornerPath b r1 c1 r2 c2 with
    | some p => some (1, p)
    | none =>
      match findTwoCornerPath b r1 c1 r2 c2 with
      | some p => some (2, p)
      | none => none

/-! ## Tile collection, the solvability oracle and the deadlock test -/

/-- A non-empty tile as collected by the `for (row) for (col)` scans of
game.js: its position and its kind (`{row, col, type}`). -/
structure TilePos where
  row : Nat
  col : Nat
  type : Tile
deriving DecidableEq, Repr

/-- Collect all non-empty tiles of a board, row major — the double loop at
the start of `isBoardSolvable`, `isDeadlocked`, `findConnectablePair`,
`selectRandomTilesToRemove` and `selectBombTargetsEnsuringSolvable`. -/
def collectTiles (b : Board) : List TilePos :=
  (List.range (rowsOf b)).flatMap (fun r =>
    (List.range (colsOf b)).filterMap (fun c =>
      ((b.getD r []).getD c none).map (fun t => ⟨r, c, t⟩)))

/-- The `for (i) for (j = i+1)` scan over ordered pairs used by the oracle:
true iff some pair `(tiles[i], tiles[j])` with `i < j` satisfies `f`. -/
def anyPairs : List α → (α → α → Bool) → Bool
  | [], _ => false
  | x :: xs, f => xs.any (f x) || anyPairs xs f

/-- `isBoardSolvable` from game.js.  It collects the tiles of its argument
`b` but — because line 101 calls `findPath(tile1, tile2)` without the
`boardToCheck` argument — path-checks them against the component's current
state board `stateB`. -/
def isBoardSolvable (stateB b : Board) : Bool :=
  anyPairs (collectTiles b) (fun t1 t2 =>
    t1.type = t2.type &&
      (findPath stateB t1.row t1.col t2.row t2.col).isSome)

/-- `isDeadlocked` from game.js: no connectable same-kind pair (here the
path check correctly passes `currentBoard`) and at least one tile left. -/
def isDeadlocked (b : Board) : Bool :=
  let tiles := collectTiles b
  !(anyPairs tiles (fun t1 t2 =>
      t1.type = t2.type && (findPath b t1.row t1.col t2.row t2.col).isSome)) &&
    decide (0 < tiles.length)

/-- `findConnectablePair` from game.js (used by the hint tool): the first
connectable same-kind pair, path-checked on `currentBoard` itself. -/
def findConnectablePair (b : Board) : Option (TilePos × TilePos) :=
  let rec scan : List TilePos → Option (TilePos × TilePos)
    | [] => none
    | x :: xs =>
      match xs.find? (fun y => x.type = y.type &&
          (findPath b x.row x.col y.row y.col).isSome) with
      | some y => some (x, y)
      | none => scan xs
  scan (collectTiles b)

/-! ## Gravity / reflow engine (`applyGravityEffect`) -/

/-- The six layout modes of `GAME_CONSTANTS.LAYOUTS`. -/
inductive LayoutMode where
  | Static | Left | Right | Up | Down | Split
deriving DecidableEq, Repr

/-- The non-empty tiles of one row read at columns `0..cols-1`, in order —
the `rowTiles` accumulation of `applyGravityEffect` (a cell beyond the end
of the list reads as `undefined`, i.e. empty, exactly as in JS). -/
def rowTilesUpTo (cols : Nat) (row : List Cell) : List Tile :=
  (List.range cols).filterMap (fun c => row.getD c none)

/-- The non-empty tiles of one column read at rows `0..rows-1`, top down —
the `colTiles` accumulation of the `Up`/`Down` cases. -/
def colTilesOf (b : Board) (c : Nat) : List Tile :=
  (List.range (rowsOf b)).filterMap (fun r => (b.getD r []).getD c none)

/-- The `Left` case of `applyGravityEffect` on one row: slide the row's
tiles to the left (`newBoard[row][col] = rowTiles[col] || ''`). -/
def leftRow (cols : Nat) (row : List Cell) : List Cell :=
  let ts := rowTilesUpTo cols row
  ((List.range cols).map (fun c => ts.get? c)) ++ row.drop cols

/-- The `Right` case of `applyGravityEffect` on one row: slide the row's
tiles to the right (`tileIndex = rowTiles.length - cols + col`, used when
non-negative). -/
def rightRow (cols : Nat) (row : List Cell) : List Cell :=
  let ts := rowTilesUpTo cols row
  ((List.range cols).map (fun c =>
    if cols ≤ ts.length + c then ts.get? (ts.length + c - cols) else none)) ++
    row.drop cols

/-- The `Split` case of `applyGravityEffect` on one row: the first
`⌈n/2⌉` tiles flush left, the remaining `⌊n/2⌋` flush right. -/
def splitRow (cols : Nat) (row : List Cell) : List Cell :=
  let ts := rowTilesUpTo cols row
  let lts := ts.take ((ts.length + 1) / 2)
  let rts := ts.drop ((ts.length + 1) / 2)
  ((List.range cols).map (fun c =>
    if cols - rts.length ≤ c then rts.get? (c - (cols - rts.length))
    else if c < lts.length then lts.get? c
    else none)) ++ row.drop cols

/-- Row `r` of the `Up` case: column `c` receives `colTiles[r]`. -/
def upRow (b : Board) (r : Nat) : List Cell :=
  ((List.range (colsOf b)).map (fun c => (colTilesOf b c).get? r)) ++
    (b.getD r []).drop (colsOf b)

/-- Row `r` of the `Down` case: column `c` receives
`colTiles[colTiles.length - rows + r]` when that index is non-negative. -/
def downRow (b : Board) (r : Nat) : List Cell :=
  ((List.range (colsOf b)).map (fun c =>
    let ts := colTilesOf b c
    if rowsOf b ≤ ts.length + r then ts.get? (ts.length + r - rowsOf b) else none)) ++
    (b.getD r []).drop (colsOf b)

/-- `applyGravityEffect` from game.js.  Each case overwrites the cells
`[row][col]` for `row < rows`, `col < cols` of a copy of the board and
leaves any cell beyond those loop bounds untouched (hence the
`++ row.drop cols` tails of the row helpers, which are empty for the
rectangular boards the game builds). -/
def applyGravityEffect (b : Board) (m : LayoutMode) : Board :=
  match m with
  | .Static => b
  | .Left => b.map (leftRow (colsOf b))
  | .Right => b.map (rightRow (colsOf b))
  | .Up => (List.range (rowsOf b)).map (fun r => upRow b r)
  | .Down => (List.range (rowsOf b)).map (fun r => downRow b r)
  | .Split => b.map (splitRow (colsOf b))

/-! ## The injected random source and the Fisher–Yates shuffle -/

/-- Swap two positions of a list (the JS
`[a[i], a[j]] = [a[j], a[i]]` destructuring swap). -/
def listSwap (l : List α) (i j : Nat) : List α :=
  match l.get? i, l.get? j with
  | some x, some y => (l.set i y).set j x
  | _, _ => l

/-- The descending loop of the Fisher–Yates shuffle: at index `i + 1` the
next random number `j` picks a swap target in `[0, i + 1]`. -/
def fyLoop (l : List α) (js : List Nat) : Nat → List α
  | 0 => l
  | i + 1 => fyLoop (listSwap l (i + 1) (js.headD 0 % (i + 2))) js.tail i

/-- The Fisher–Yates shuffle `for (i = n-1; i > 0; i--)` of the source,
driven by the injected random numbers `js` (it consumes `l.length - 1` of
them). -/
def fisherYates (l : List α) (js : List Nat) : List α :=
  fyLoop l js (l.length - 1)

/-! ## Board model helpers (store `GameUtils`) -/

/-- `GameUtils.getBoardDimensions` from the game store: collect the factor
pairs `[i, size / i]` for `i = 1 .. ⌊√size⌋` dividing `size`, and return the
last one found (the most square-like pair). -/
def getBoardDimensions (size : Nat) : Nat × Nat :=
  (((List.range' 1 size).filter (fun i =>
      decide (i * i ≤ size) && decide (size % i = 0))).map
    (fun i => (i, size / i))).getLastD (0, 0)

/-! ## Board mutation helpers -/

/-- Write one cell of the board (`board[r][c] = v`); out-of-range writes are
dropped, matching the guarded writes of `simulateRemovalAndGravity`. -/
def setCell (b : Board) (r c : Nat) (v : Cell) : Board :=
  b.set r ((b.getD r []).set c v)

/-- Clear a list of positions (`newBoard[t.row][t.col] = ''`). -/
def clearCells (b : Board) (ps : List (Nat × Nat)) : Board :=
  ps.foldl (fun bd p => setCell bd p.1 p.2 none) b

/-- Clear the cells of a list of targeted tiles. -/
def clearTargets (b : Board) (ts : List TilePos) : Board :=
  ts.foldl (fun bd t => setCell bd t.row t.col none) b

/-- The non-empty tiles of the whole board, row major
(`board.forEach(row => row.forEach(tile => { if (tile) ... }))`). -/
def flattenTiles (b : Board) : List Tile :=
  (b.map (fun row => row.filterMap id)).flatten

/-- The number of non-empty cells of a board. -/
def countTiles (b : Board) : Nat :=
  (flattenTiles b).length

/-- `isLevelComplete` from game.js: every cell of every row is empty. -/
def boardAllEmpty (b : Board) : Bool :=
  b.all (fun row => row.all (fun c => c.isNone))

/-- Refill the board shape of `b` with the tiles `ts`, row major: cell
`(r, c)` receives `ts[r * cols + c]` when that index exists (the
`tileIndex` loops of the shuffle tool and of `shuffleUntilSolvable`). -/
def refillBoard (b : Board) (ts : List Tile) : Board :=
  (List.range (rowsOf b)).map (fun r =>
    ((List.range (colsOf b)).map (fun c => ts.get? (r * colsOf b + c))) ++
      List.replicate ((b.getD r []).length - colsOf b) (none : Cell))

/-- `handleSuccessfulMatch`'s board update: clear the two selected tiles and
apply the level's gravity mode. -/
def removeMatchedPair (layout : LayoutMode) (b : Board) (p1 p2 : Nat × Nat) : Board :=
  applyGravityEffect (clearCells b [p1, p2]) layout

/-- The shuffle tool of `handleUseTool`: shuffle all remaining tiles into
the same cell positions, then apply the level's gravity mode. -/
def shuffleToolBoard (layout : LayoutMode) (b : Board) (js : List Nat) : Board :=
  applyGravityEffect (refillBoard b (fisherYates (flattenTiles b) js)) layout

/-! ## Board generators -/

/-- `generateGameBoard` from the game store (used by `startLevel`): build
`size / 2` pairs of kinds round-robin over the first `kinds` emojis,
Fisher–Yates shuffle, pack row major into a `getBoardDimensions size` grid.
No solvability check of any kind is performed. -/
def generateGameBoard (js : List Nat) (size kinds : Nat) : Board :=
  let dims := getBoardDimensions size
  let pairs := size / 2
  let tiles := (List.range pairs).flatMap (fun i => [i % kinds, i % kinds])
  let shuffled := fisherYates tiles js
  (List.range dims.1).map (fun r =>
    (List.range dims.2).map (fun c => shuffled.get? (r * dims.2 + c)))

/-- `generateBasicBoard` from game.js — the same construction as the
store's `generateGameBoard` (the source duplicates it verbatim). -/
def generateBasicBoard (js : List Nat) (size kinds : Nat) : Board :=
  let dims := getBoardDimensions size
  let pairs := size / 2
  let tiles := (List.range pairs).flatMap (fun i => [i % kinds, i % kinds])
  let shuffled := fisherYates tiles js
  (List.range dims.1).map (fun r =>
    (List.range dims.2).map (fun c => shuffled.get? (r * dims.2 + c)))

/-- The empty cell positions scanned by `findBestPositionsForPair`
(`rows`/`cols` are the dimensions passed in, row major). -/
def collectEmptyPositions (b : Board) (rows cols : Nat) : List (Nat × Nat) :=
  (List.range rows).flatMap (fun r =>
    (List.range cols).filterMap (fun c =>
      if ((b.getD r []).getD c none).isNone then some (r, c) else none))

/-- The `for (i) for (j = i+1)` scan of `findBestPositionsForPair` for the
first pair of positions that `findPath` (path-checked, via its defaulted
argument, on the component state board `stateB`) reports connectable. -/
def firstConnectablePair (stateB : Board) : List (Nat × Nat) → Option ((Nat × Nat) × (Nat × Nat))
  | [] => none
  | x :: xs =>
    match xs.find? (fun y => (findPath stateB x.1 x.2 y.1 y.2).isSome) with
    | some y => some (x, y)
    | none => firstConnectablePair stateB xs

/-- `findBestPositionsForPair` from game.js: shuffle the empty positions,
return the first connectable pair, else the first two shuffled empties. -/
def findBestPositionsForPair (stateB b : Board) (rows cols : Nat) (js : List Nat) :
    List (Nat × Nat) :=
  let shuffled := fisherYates (collectEmptyPositions b rows cols) js
  match firstConnectablePair stateB shuffled with
  | some (p, q) => [p, q]
  | none => shuffled.take 2

/-- One iteration of the `generateIntelligentBoard` placement loop (the body
of its `shuffledPairs.forEach`): find positions for the pair of kind `t`,
place the two tiles when at least two positions come back, and advance the
random stream by the numbers the position shuffle consumed. -/
def intelligentStep (stateB : Board) (dims : Nat × Nat)
    (acc : Board × List Nat) (t : Tile) : Board × List Nat :=
  let e := (collectEmptyPositions acc.1 dims.1 dims.2).length
  let js' := acc.2.drop (e - 1)
  match findBestPositionsForPair stateB acc.1 dims.1 dims.2 acc.2 with
  | p :: q :: _ =>
    (setCell (setCell acc.1 p.1 p.2 (some t)) q.1 q.2 (some t), js')
  | _ => (acc.1, js')

/-- `generateIntelligentBoard` from game.js: starting from an empty grid,
place the shuffled pair kinds one pair at a time at the positions chosen by
`findBestPositionsForPair` (a pair is skipped when fewer than two positions
come back).  The random stream is consumed by the pair shuffle and then by
each position shuffle. -/
def generateIntelligentBoard (stateB : Board) (size kinds : Nat) (js : List Nat) : Board :=
  let dims := getBoardDimensions size
  let pairs := size / 2
  let tilePairs := (List.range pairs).map (fun i => i % kinds)
  let shuffledPairs := fisherYates tilePairs js
  let js1 := js.drop (pairs - 1)
  (shuffledPairs.foldl (intelligentStep stateB dims)
    (List.replicate dims.1 (List.replicate dims.2 (none : Cell)), js1)).1

/-- The retry loop of `generateSolvableBoard`, with the number of remaining
attempts that may still return a random board as fuel: when the budget is
exhausted one more basic board is generated (consuming its random numbers)
and immediately replaced by the constructive fallback, exactly as the
`attempts >= maxAttempts` branch of the source does. -/
def genAttempts (stateB : Board) (size kinds : Nat) : Nat → List Nat → Board
  | 0, js => generateIntelligentBoard stateB size kinds (js.drop (2 * (size / 2) - 1))
  | n + 1, js =>
    let bd := generateBasicBoard js size kinds
    if isBoardSolvable stateB bd then bd
    else genAttempts stateB size kinds n (js.drop (2 * (size / 2) - 1))

/-- `generateSolvableBoard` from game.js (`maxAttempts = 50` by default). -/
def generateSolvableBoard (stateB : Board) (size kinds maxAttempts : Nat)
    (js : List Nat) : Board :=
  genAttempts stateB size kinds (maxAttempts - 1) js

/-! ## Bomb tool -/

/-- `getBombRemoveCount` from game.js (2/4/6 tiles by level size). -/
def getBombRemoveCount (levelSize : Nat) : Nat :=
  if levelSize = 20 then 2
  else if levelSize = 60 then 4
  else if levelSize = 80 then 6
  else 2

/-- `selectRandomSubset` from game.js: shuffle a copy, take the first
`min k length` elements. -/
def selectRandomSubset (arr : List α) (k : Nat) (js : List Nat) : List α :=
  (fisherYates arr js).take (min k arr.length)

/-- `selectRandomTilesToRemove` from game.js: shuffle all non-empty tiles,
take the first `min k count`. -/
def selectRandomTilesToRemove (b : Board) (k : Nat) (js : List Nat) : List TilePos :=
  let tiles := collectTiles b
  (fisherYates tiles js).take (min k tiles.length)

/-- `simulateRemovalAndGravity` from game.js: clear the targeted cells and
apply the level's gravity mode. -/
def simulateRemovalAndGravity (b : Board) (layout : LayoutMode)
    (targets : List TilePos) : Board :=
  applyGravityEffect (clearTargets b targets) layout

/-- The sampling loop of `selectBombTargetsEnsuringSolvable`: each attempt
draws a random subset, simulates removal + gravity and tests it with
`isBoardSolvable`; each attempt consumes `tiles.length - 1` random
numbers. -/
def bombAttempts (stateB b : Board) (layout : LayoutMode) (k : Nat)
    (tiles : List TilePos) : Nat → List Nat → Option (List TilePos)
  | 0, _ => none
  | n + 1, js =>
    let cand := selectRandomSubset tiles k js
    if isBoardSolvable stateB (simulateRemovalAndGravity b layout cand) then some cand
    else bombAttempts stateB b layout k tiles n (js.drop (tiles.length - 1))

/-- `selectBombTargetsEnsuringSolvable` from game.js (`maxAttempts = 120`
by default); on an empty board it returns the empty target list. -/
def selectBombTargetsEnsuringSolvable (stateB b : Board) (layout : LayoutMode)
    (k maxAttempts : Nat) (js : List Nat) : Option (List TilePos) :=
  let tiles := collectTiles b
  if tiles.isEmpty then some []
  else bombAttempts stateB b layout k tiles maxAttempts js

/-- The retry loop of `shuffleUntilSolvable`: the remaining tiles are
reshuffled (cumulatively, as the source shuffles the same array in place),
refilled into the board shape, reflowed, and tested with
`isBoardSolvable`. -/
def shuffleLoop (stateB : Board) (layout : LayoutMode) (b : Board) :
    List Tile → List Nat → Nat → Board
  | _, _, 0 => b
  | fl, js, n + 1 =>
    let fl' := fisherYates fl js
    let bd := applyGravityEffect (refillBoard b fl') layout
    if isBoardSolvable stateB bd then bd
    else shuffleLoop stateB layout b fl' (js.drop (fl.length - 1)) n

/-- `shuffleUntilSolvable` from game.js (`maxTries = 30` by default; the
bomb tool calls it with 25): return the first shuffled-and-reflowed board
the oracle accepts, or the input board unchanged after `maxTries`
failures. -/
def shuffleUntilSolvable (stateB : Board) (layout : LayoutMode) (b : Board)
    (js : List Nat) (maxTries : Nat) : Board :=
  shuffleLoop stateB layout b (flattenTiles b) js maxTries

/-- The board update of `executeBombDestruction`: clear the targets, apply
gravity, and if the result is deadlocked repair it with
`shuffleUntilSolvable` (25 tries). -/
def executeBombDestruction (stateB : Board) (layout : LayoutMode) (b : Board)
    (targets : List TilePos) (js : List Nat) : Board :=
  let fb := applyGravityEffect (clearTargets b targets) layout
  if isDeadlocked fb then shuffleUntilSolvable stateB layout fb js 25 else fb

/-- The whole bomb-tool board update of `handleUseTool`: targets come from
`selectBombTargetsEnsuringSolvable` with `selectRandomTilesToRemove` as the
`||`-fallback (an empty target list leaves the board unchanged — the
`tilesToRemove.length > 0` guard).  The three independent random streams
conservatively model suffixes of the one global stream. -/
def bombToolBoard (stateB : Board) (layout : LayoutMode) (b : Board) (levelSize : Nat)
    (js1 js2 js3 : List Nat) : Board :=
  let k := getBombRemoveCount levelSize
  let targets :=
    match selectBombTargetsEnsuringSolvable stateB b layout k 120 js1 with
    | some ts => ts
    | none => selectRandomTilesToRemove b k js2
  if targets.isEmpty then b else executeBombDestruction stateB layout b targets js3

/-! ## Helper lemmas about `getLastD` -/

theorem getLastD_mem {l : List α} (h : l ≠ []) (d : α) : l.getLastD d ∈ l := by
  induction l with
  | nil => exact absurd rfl h
  | cons a t ih =>
    rw [List.getLastD_cons]
    cases t with
    | nil => simp
    | cons b u => exact List.mem_cons_of_mem a (ih (List.cons_ne_nil b u))

theorem le_getLastD_of_pairwise {l : List Nat} (hp : l.Pairwise (· < ·)) {x : Nat}
    (hx : x ∈ l) (d : Nat) : x ≤ l.getLastD d := by
  induction l generalizing d with
  | nil => cases hx
  | cons a t ih =>
    rw [List.getLastD_cons]
    rcases List.mem_cons.mp hx with rfl | hx
    · cases t with
      | nil => simp
      | cons b u =>
        have hmem := getLastD_mem (List.cons_ne_nil b u) x
        exact le_of_lt ((List.pairwise_cons.mp hp).1 _ hmem)
    · exact ih (List.pairwise_cons.mp hp).2 hx a

theorem getLastD_map (f : α → β) {l : List α} (h : l ≠ []) (d : β) (e : α) :
    (l.map f).getLastD d = f (l.getLastD e) := by
  induction l generalizing d e with
  | nil => exact absurd rfl h
  | cons a t ih =>
    rw [List.map_cons, List.getLastD_cons, List.getLastD_cons]
    cases t with
    | nil => rfl
    | cons b u => exact ih (List.cons_ne_nil b u) (f a) a

/-! ## C8: board dimensions -/

/-- The filtered divisor list scanned by `getBoardDimensions`. -/
def dimCandidates (size : Nat) : List Nat :=
  (List.range' 1 size).filter (fun i => decide (i * i ≤ size) && decide (size % i = 0))

theorem getBoardDimensions_eq (size : Nat) (h : 0 < size) :
    getBoardDimensions size = ((dimCandidates size).getLastD 0,
      size / (dimCandidates size).getLastD 0) := by
  have h1 : 1 ∈ dimCandidates size := by
    unfold dimCandidates
    rw [List.mem_filter]
    refine ⟨List.mem_range'_1.mpr ⟨le_refl 1, by omega⟩, ?_⟩
    simp only [Bool.and_eq_true, decide_eq_true_eq]
    omega
  have hne : dimCandidates size ≠ [] := List.ne_nil_of_mem h1
  unfold getBoardDimensions
  rw [show (((List.range' 1 size).filter (fun i =>
      decide (i * i ≤ size) && decide (size % i = 0)))) = dimCandidates size from rfl]
  exact getLastD_map _ hne (0, 0) 0

theorem dimCandidates_pairwise (size : Nat) : (dimCandidates size).Pairwise (· < ·) :=
  List.Pairwise.filter _ (List.pairwise_lt_range' 1 size)

theorem mem_dimCandidates {size i : Nat} (hi : 0 < i) (hd : i ∣ size)
    (hsq : i * i ≤ size) (h : 0 < size) : i ∈ dimCandidates size := by
  unfold dimCandidates
  rw [List.mem_filter]
  refine ⟨List.mem_range'_1.mpr ⟨hi, ?_⟩, ?_⟩
  · have := Nat.le_of_dvd h hd
    omega
  · simp only [Bool.and_eq_true, decide_eq_true_eq]
    exact ⟨hsq, Nat.mod_eq_zero_of_dvd hd⟩

theorem dimCandidates_getLastD_spec (size : Nat) (h : 0 < size) :
    let r := (dimCandidates size).getLastD 0
    0 < r ∧ r ∣ size ∧ r * r ≤ size ∧
      (∀ i, 0 < i → i ∣ size → i * i ≤ size → i ≤ r) := by
  intro r
  have h1 : 1 ∈ dimCandidates size := by
    unfold dimCandidates
    rw [List.mem_filter]
    refine ⟨List.mem_range'_1.mpr ⟨le_refl 1, by omega⟩, ?_⟩
    simp only [Bool.and_eq_true, decide_eq_true_eq]
    omega
  have hne : dimCandidates size ≠ [] := List.ne_nil_of_mem h1
  have hmem : r ∈ dimCandidates size := getLastD_mem hne 0
  have hprop : r ∈ List.range' 1 size ∧ (r * r ≤ size ∧ size % r = 0) := by
    have := List.mem_filter.mp hmem
    refine ⟨this.1, ?_⟩
    have h2 := this.2
    simp only [Bool.and_eq_true, decide_eq_true_eq] at h2
    exact h2
  have hr1 : 1 ≤ r := (List.mem_range'_1.mp hprop.1).1
  refine ⟨hr1, Nat.dvd_of_mod_eq_zero hprop.2.2, hprop.2.1, ?_⟩
  intro i hi hd hsq
  exact le_getLastD_of_pairwise (dimCandidates_pairwise size)
    (mem_dimCandidates hi hd hsq h) 0

/-- **C8.**  For every positive `size`, `getBoardDimensions size` returns the
factor pair `(rows, cols)` with `rows * cols = size` in which `rows` is the
largest divisor of `size` not exceeding `√size`, and that pair minimises the
difference `cols - rows` over all factorisations of `size`; in particular
`getBoardDimensions 20 = (4, 5)`, `getBoardDimensions 60 = (6, 10)` and
`getBoardDimensions 80 = (8, 10)`. -/
theorem getBoardDimensions_spec (size : Nat) (h : 0 < size) :
    (getBoardDimensions size).1 * (getBoardDimensions size).2 = size ∧
    (getBoardDimensions size).1 ∣ size ∧
    (getBoardDimensions size).1 * (getBoardDimensions size).1 ≤ size ∧
    (∀ i, 0 < i → i ∣ size → i * i ≤ size → i ≤ (getBoardDimensions size).1) ∧
    (∀ a b : Nat, a * b = size →
      (getBoardDimensions size).2 - (getBoardDimensions size).1 ≤ max a b - min a b) ∧
    getBoardDimensions 20 = (4, 5) ∧ getBoardDimensions 60 = (6, 10) ∧
    getBoardDimensions 80 = (8, 10) := by
  obtain ⟨hr0, hdvd, hsq, hmax⟩ := dimCandidates_getLastD_spec size h
  rw [getBoardDimensions_eq size h]
  set r := (dimCandidates size).getLastD 0 with hr
  refine ⟨Nat.mul_div_cancel' hdvd, hdvd, hsq, hmax, ?_, by decide, by decide, by decide⟩
  intro a b hab
  have key : ∀ x y : Nat, x ≤ y → x * y = size → size / r - r ≤ y - x := by
    intro x y hxy hxy2
    have hx0 : 0 < x := by
      rcases Nat.eq_zero_or_pos x with h0 | h0
      · subst h0; simp at hxy2; omega
      · exact h0
    have hxd : x ∣ size := ⟨y, hxy2.symm⟩
    have hxsq : x * x ≤ size := by
      calc x * x ≤ x * y := Nat.mul_le_mul_left x hxy
      _ = size := hxy2
    have hxr : x ≤ r := hmax x hx0 hxd hxsq
    have hy : y = size / x := by
      rw [← hxy2, Nat.mul_div_cancel_left y hx0]
    have hdiv : size / r ≤ size / x := Nat.div_le_div_left hxr hx0
    rw [hy]
    omega
  rcases Nat.le_total a b with hab2 | hab2
  · have := key a b hab2 hab
    rwa [Nat.max_eq_right hab2, Nat.min_eq_left hab2]
  · have := key b a hab2 (by rwa [Nat.mul_comm])
    rwa [Nat.max_eq_left hab2, Nat.min_eq_right hab2]

/-- Witness for C8: instantiation at `size = 20`. -/
theorem getBoardDimensions_spec_witness :
    0 < 20 ∧ (getBoardDimensions 20).1 * (getBoardDimensions 20).2 = 20 :=
  ⟨by decide, (getBoardDimensions_spec 20 (by decide)).1⟩

/-! ## Path-finder lemmas: symmetry and the one-corner characterisation -/

theorem betweenInts_comm (a b : Int) : betweenInts a b = betweenInts b a := by
  unfold betweenInts
  rw [min_comm, max_comm]

theorem betweenInts_self (a : Int) : betweenInts a a = [] := by
  unfold betweenInts
  simp

theorem findStraightPath_symm (b : Board) (r1 c1 r2 c2 : Int) :
    findStraightPath b r1 c1 r2 c2 = findStraightPath b r2 c2 r1 c1 := by
  unfold findStraightPath
  by_cases h : r1 = r2
  · subst h
    rw [betweenInts_comm]
    simp
  · have h' : ¬(r2 = r1) := fun hh => h hh.symm
    by_cases hc : c1 = c2
    · subst hc
      simp only [if_neg h, if_neg h']
      rw [betweenInts_comm]
    · have hc' : ¬(c2 = c1) := fun hh => hc hh.symm
      simp only [if_neg h, if_neg h', if_neg hc, if_neg hc']

theorem checkLPath_isSome (b : Board) (r1 c1 rm cm r2 c2 : Int) :
    (checkLPath b r1 c1 rm cm r2 c2).isSome =
      (isEmptyAt b rm cm && (findStraightPath b r1 c1 rm cm).isSome &&
        (findStraightPath b rm cm r2 c2).isSome) := by
  unfold checkLPath
  cases hval : isEmptyAt b rm cm
  · simp
  · simp only [if_pos rfl, Bool.true_and]
    cases findStraightPath b r1 c1 rm cm <;>
      cases findStraightPath b rm cm r2 c2 <;> simp

theorem findOneCornerPath_isSome (b : Board) (r1 c1 r2 c2 : Int) :
    (findOneCornerPath b r1 c1 r2 c2).isSome =
      ((checkLPath b r1 c1 r1 c2 r2 c2).isSome ||
        (checkLPath b r1 c1 r2 c1 r2 c2).isSome) := by
  unfold findOneCornerPath
  cases checkLPath b r1 c1 r1 c2 r2 c2 <;> simp

theorem findOneCornerPath_isSome_symm (b : Board) (r1 c1 r2 c2 : Int) :
    (findOneCornerPath b r1 c1 r2 c2).isSome =
      (findOneCornerPath b r2 c2 r1 c1).isSome := by
  rw [findOneCornerPath_isSome, findOneCornerPath_isSome,
    checkLPath_isSome, checkLPath_isSome, checkLPath_isSome, checkLPath_isSome,
    findStraightPath_symm b r2 c2 r2 c1, findStraightPath_symm b r2 c1 r1 c1,
    findStraightPath_symm b r2 c2 r1 c2, findStraightPath_symm b r1 c2 r1 c1]
  cases isEmptyAt b r1 c2 <;> cases isEmptyAt b r2 c1 <;>
    cases (findStraightPath b r1 c1 r1 c2).isSome <;>
    cases (findStraightPath b r1 c2 r2 c2).isSome <;>
    cases (findStraightPath b r1 c1 r2 c1).isSome <;>
    cases (findStraightPath b r2 c1 r2 c2).isSome <;> rfl

theorem checkTwoCornerPath_isSome (b : Board) (r1 c1 rm cm r2 c2 : Int) :
    (checkTwoCornerPath b r1 c1 rm cm r2 c2).isSome =
      (isEmptyAt b rm cm &&
        ((findStraightPath b r1 c1 rm cm).isSome && (findStraightPath b rm cm r2 c2).isSome ||
         (findOneCornerPath b r1 c1 rm cm).isSome && (findStraightPath b rm cm r2 c2).isSome ||
         (findStraightPath b r1 c1 rm cm).isSome && (findOneCornerPath b rm cm r2 c2).isSome)) := by
  unfold checkTwoCornerPath
  cases hval : isEmptyAt b rm cm
  · simp
  · simp only [if_pos rfl, Bool.true_and]
    cases findStraightPath b r1 c1 rm cm <;>
      cases findStraightPath b rm cm r2 c2 <;>
      cases findOneCornerPath b r1 c1 rm cm <;>
      cases findOneCornerPath b rm cm r2 c2 <;> simp

theorem checkTwoCornerPath_isSome_symm (b : Board) (r1 c1 rm cm r2 c2 : Int) :
    (checkTwoCornerPath b r1 c1 rm cm r2 c2).isSome =
      (checkTwoCornerPath b r2 c2 rm cm r1 c1).isSome := by
  rw [checkTwoCornerPath_isSome, checkTwoCornerPath_isSome,
    findStraightPath_symm b r2 c2 rm cm, findStraightPath_symm b rm cm r1 c1,
    findOneCornerPath_isSome_symm b r2 c2 rm cm, findOneCornerPath_isSome_symm b rm cm r1 c1]
  cases isEmptyAt b rm cm <;>
    cases (findStraightPath b rm cm r2 c2).isSome <;>
    cases (findStraightPath b r1 c1 rm cm).isSome <;>
    cases (findOneCornerPath b rm cm r2 c2).isSome <;>
    cases (findOneCornerPath b r1 c1 rm cm).isSome <;> rfl

theorem findSome?_isSome_eq_any (f : α → Option β) (l : List α) :
    (l.findSome? f).isSome = l.any (fun x => (f x).isSome) := by
  induction l with
  | nil => rfl
  | cons a t ih =>
    rw [List.findSome?_cons, List.any_cons]
    cases f a <;> simp [ih]

theorem any_congr {f g : α → Bool} {l : List α} (h : ∀ x ∈ l, f x = g x) :
    l.any f = l.any g := by
  induction l with
  | nil => rfl
  | cons a t ih =>
    rw [List.any_cons, List.any_cons, h a (List.mem_cons_self a t),
      ih (fun x hx => h x (List.mem_cons_of_mem a hx))]

theorem findTwoCornerPath_isSome_symm (b : Board) (r1 c1 r2 c2 : Int) :
    (findTwoCornerPath b r1 c1 r2 c2).isSome =
      (findTwoCornerPath b r2 c2 r1 c1).isSome := by
  unfold findTwoCornerPath
  have key : ∀ o1 o2 : Option (List (Int × Int)),
      (match o1 with | some p => some p | none => o2).isSome = (o1.isSome || o2.isSome) := by
    intro o1 o2
    cases o1 <;> simp
  rw [key, key, findSome?_isSome_eq_any, findSome?_isSome_eq_any,
    findSome?_isSome_eq_any, findSome?_isSome_eq_any]
  have hin : ((inBoardMids b).any (fun m =>
      (if isEmptyAt b m.1 m.2 then checkTwoCornerPath b r1 c1 m.1 m.2 r2 c2 else none).isSome)) =
      ((inBoardMids b).any (fun m =>
      (if isEmptyAt b m.1 m.2 then checkTwoCornerPath b r2 c2 m.1 m.2 r1 c1 else none).isSome)) := by
    apply any_congr
    intro m _
    cases hval : isEmptyAt b m.1 m.2
    · simp
    · simp only [if_pos rfl]
      exact checkTwoCornerPath_isSome_symm b r1 c1 m.1 m.2 r2 c2
  have hstrip : ((stripMids b).any (fun m => (checkTwoCornerPath b r1 c1 m.1 m.2 r2 c2).isSome)) =
      ((stripMids b).any (fun m => (checkTwoCornerPath b r2 c2 m.1 m.2 r1 c1).isSome)) := by
    apply any_congr
    intro m _
    exact checkTwoCornerPath_isSome_symm b r1 c1 m.1 m.2 r2 c2
  rw [hin, hstrip]

/-- **C7.**  `findPath` is symmetric in its two endpoints: validity agrees
and, when both directions are valid, the returned turn counts agree
(`Option.map Prod.fst` projects the turn count, `none` meaning invalid). -/
theorem findPath_symm (b : Board) (r1 c1 r2 c2 : Int) :
    (findPath b r1 c1 r2 c2).map Prod.fst = (findPath b r2 c2 r1 c1).map Prod.fst := by
  unfold findPath
  rw [← findStraightPath_symm b r1 c1 r2 c2]
  cases hs : findStraightPath b r1 c1 r2 c2 with
  | some p => rfl
  | none =>
    have h1 := findOneCornerPath_isSome_symm b r1 c1 r2 c2
    cases h1a : findOneCornerPath b r1 c1 r2 c2 with
    | some p =>
      cases h1b : findOneCornerPath b r2 c2 r1 c1 with
      | some q => rfl
      | none => rw [h1a, h1b] at h1; simp at h1
    | none =>
      cases h1b : findOneCornerPath b r2 c2 r1 c1 with
      | some q => rw [h1a, h1b] at h1; simp at h1
      | none =>
        have h2 := findTwoCornerPath_isSome_symm b r1 c1 r2 c2
        cases h2a : findTwoCornerPath b r1 c1 r2 c2 with
        | some p =>
          cases h2b : findTwoCornerPath b r2 c2 r1 c1 with
          | some q => rfl
          | none => rw [h2a, h2b] at h2; simp at h2
        | none =>
          cases h2b : findTwoCornerPath b r2 c2 r1 c1 with
          | some q => rw [h2a, h2b] at h2; simp at h2
          | none => rfl

theorem findStraightPath_isSome_row (b : Board) (r c1 c2 : Int) :
    (findStraightPath b r c1 r c2).isSome =
      (betweenInts c1 c2).all (fun c => isEmptyAt b r c) := by
  unfold findStraightPath
  rw [if_pos rfl]
  have hmap : (List.map (fun c => ((r : Int), c)) (betweenInts c1 c2)).all
      (fun p => isEmptyAt b p.1 p.2) = (betweenInts c1 c2).all (fun c => isEmptyAt b r c) := by
    induction betweenInts c1 c2 with
    | nil => rfl
    | cons x t ih => simp [ih]
  simp only [hmap]
  cases (betweenInts c1 c2).all (fun c => isEmptyAt b r c) <;> simp

theorem findStraightPath_isSome_col (b : Board) (r1 r2 c : Int) :
    (findStraightPath b r1 c r2 c).isSome =
      (betweenInts r1 r2).all (fun r => isEmptyAt b r c) := by
  by_cases h : r1 = r2
  · subst h
    rw [betweenInts_self]
    unfold findStraightPath
    rw [if_pos rfl, betweenInts_self]
    simp
  · unfold findStraightPath
    rw [if_neg h, if_pos rfl]
    have hmap : (List.map (fun r => (r, c)) (betweenInts r1 r2)).all
        (fun p => isEmptyAt b p.1 p.2) = (betweenInts r1 r2).all (fun r => isEmptyAt b r c) := by
      induction betweenInts r1 r2 with
      | nil => rfl
      | cons x t ih => simp [ih]
    simp only [hmap]
    cases (betweenInts r1 r2).all (fun r => isEmptyAt b r c) <;> simp

/-- **C4.**  For two non-empty cells `A = (rA, cA)` and `B = (rB, cB)` that
are not connected by a straight path, `findPath` reports `turns = 1` exactly
when one of the corner cells `(rA, cB)`, `(rB, cA)` is empty and both of its
straight segments consist only of empty cells strictly between their ends;
corner `(rA, cB)` is tried first, and the first valid corner supplies the
returned waypoints (the path built by `checkLPath` through it). -/
theorem findPath_one_turn_spec (b : Board) (rA cA rB cB : Int)
    (hA : isEmptyAt b rA cA = false) (hB : isEmptyAt b rB cB = false)
    (hs : findStraightPath b rA cA rB cB = none) :
    (((findPath b rA cA rB cB).map Prod.fst = some 1) ↔
      ((isEmptyAt b rA cB = true ∧
          (∀ c ∈ betweenInts cA cB, isEmptyAt b rA c = true) ∧
          (∀ r ∈ betweenInts rA rB, isEmptyAt b r cB = true)) ∨
       (isEmptyAt b rB cA = true ∧
          (∀ r ∈ betweenInts rA rB, isEmptyAt b r cA = true) ∧
          (∀ c ∈ betweenInts cA cB, isEmptyAt b rB c = true)))) ∧
    (∀ p, checkLPath b rA cA rA cB rB cB = some p →
      findPath b rA cA rB cB = some (1, p)) ∧
    (checkLPath b rA cA rA cB rB cB = none →
      ∀ p, checkLPath b rA cA rB cA rB cB = some p →
        findPath b rA cA rB cB = some (1, p)) := by
  refine ⟨?_, ?_, ?_⟩
  · have key : ((findPath b rA cA rB cB).map Prod.fst = some 1) ↔
        (findOneCornerPath b rA cA rB cB).isSome = true := by
      unfold findPath
      rw [hs]
      cases h1 : findOneCornerPath b rA cA rB cB with
      | some p => simp
      | none =>
        cases h2 : findTwoCornerPath b rA cA rB cB with
        | some p => simp
        | none => simp
    rw [key, findOneCornerPath_isSome, Bool.or_eq_true,
      checkLPath_isSome, checkLPath_isSome,
      findStraightPath_isSome_row b rA cA cB, findStraightPath_isSome_col b rA rB cB,
      findStraightPath_isSome_col b rA rB cA, findStraightPath_isSome_row b rB cA cB]
    simp only [Bool.and_eq_true, List.all_eq_true]
    tauto
  · intro p hp
    unfold findPath
    rw [hs]
    unfold findOneCornerPath
    rw [hp]
  · intro hnone p hp
    unfold findPath
    rw [hs]
    unfold findOneCornerPath
    rw [hnone, hp]

/-! ## Helper lemmas for the gravity engine -/

theorem filterMap_get?_range (l : List α) (n : Nat) :
    (List.range n).filterMap (fun i => l.get? i) = l.take n := by
  induction n with
  | zero => rfl
  | succ n ih =>
    rw [List.range_succ, List.filterMap_append, ih, List.take_succ]
    congr 1
    cases h : l[n]? <;> simp [List.filterMap_cons, List.get?_eq_getElem?, h]

theorem filterMap_get?_range_of_le {l : List α} {n : Nat} (h : l.length ≤ n) :
    (List.range n).filterMap (fun i => l.get? i) = l := by
  rw [filterMap_get?_range, List.take_of_length_le h]

theorem filterMap_shifted (l : List α) (n : Nat) (h : l.length ≤ n) :
    (List.range n).filterMap (fun r =>
      if n ≤ l.length + r then l.get? (l.length + r - n) else none) = l := by
  obtain ⟨m, rfl⟩ : ∃ m, n = m + l.length := ⟨n - l.length, by omega⟩
  rw [List.range_add, List.filterMap_append]
  have h1 : List.filterMap (fun r =>
      if m + l.length ≤ l.length + r then l.get? (l.length + r - (m + l.length)) else none)
      (List.range m) = [] := by
    rw [List.filterMap_eq_nil_iff]
    intro a ha
    have := List.mem_range.mp ha
    rw [if_neg (by omega)]
  have h2 : ∀ r ∈ List.range l.length,
      ((fun r => if m + l.length ≤ l.length + r then l.get? (l.length + r - (m + l.length))
        else none) ∘ (fun x => m + x)) r = l.get? r := by
    intro r _
    simp only [Function.comp]
    rw [if_pos (by omega)]
    congr 1
    omega
  rw [h1, List.nil_append, List.filterMap_map, List.filterMap_congr h2,
    filterMap_get?_range, List.take_length]

theorem filterMap_split (lts rts : List α) (n : Nat) (h : lts.length + rts.length ≤ n) :
    (List.range n).filterMap (fun c =>
      if n - rts.length ≤ c then rts.get? (c - (n - rts.length))
      else if c < lts.length then lts.get? c else none) = lts ++ rts := by
  obtain ⟨m, rfl⟩ : ∃ m, n = m + rts.length := ⟨n - rts.length, by omega⟩
  rw [List.range_add, List.filterMap_append]
  have h1 : List.filterMap (fun c =>
      if m + rts.length - rts.length ≤ c then rts.get? (c - (m + rts.length - rts.length))
      else if c < lts.length then lts.get? c else none) (List.range m) = lts := by
    have hc : ∀ c ∈ List.range m,
        (if m + rts.length - rts.length ≤ c then rts.get? (c - (m + rts.length - rts.length))
         else if c < lts.length then lts.get? c else none) = lts.get? c := by
      intro c hcm
      have hcm' := List.mem_range.mp hcm
      rw [if_neg (by omega)]
      by_cases hcl : c < lts.length
      · rw [if_pos hcl]
      · rw [if_neg hcl]
        exact (List.get?_eq_none.mpr (by omega)).symm
    rw [List.filterMap_congr hc, filterMap_get?_range, List.take_of_length_le (by omega)]
  have h2 : ∀ i ∈ List.range rts.length, ((fun c =>
      if m + rts.length - rts.length ≤ c then rts.get? (c - (m + rts.length - rts.length))
      else if c < lts.length then lts.get? c else none) ∘ (fun x => m + x)) i = rts.get? i := by
    intro i _
    simp only [Function.comp]
    rw [if_pos (by omega)]
    congr 1
    omega
  rw [h1, List.filterMap_map, List.filterMap_congr h2, filterMap_get?_range, List.take_length]

theorem getD_map_range_append (f : Nat → α) (n : Nat) (t : List α) {c : Nat} (h : c < n)
    (d : α) : (((List.range n).map f) ++ t).getD c d = f c := by
  rw [List.getD_eq_getElem?_getD, List.getElem?_append_left (by simp [h]),
    List.getElem?_map, List.getElem?_range h]
  rfl

theorem rowTilesUpTo_length_le (cols : Nat) (row : List Cell) :
    (rowTilesUpTo cols row).length ≤ cols := by
  calc (rowTilesUpTo cols row).length ≤ (List.range cols).length :=
        List.length_filterMap_le _ _
  _ = cols := List.length_range cols

theorem colTilesOf_length_le (b : Board) (c : Nat) :
    (colTilesOf b c).length ≤ rowsOf b := by
  calc (colTilesOf b c).length ≤ (List.range (rowsOf b)).length :=
        List.length_filterMap_le _ _
  _ = rowsOf b := List.length_range _

theorem rowTilesUpTo_eq_take (cols : Nat) (row : List Cell) :
    rowTilesUpTo cols row = (row.take cols).filterMap id := by
  unfold rowTilesUpTo
  induction cols with
  | zero => rfl
  | succ n ih =>
    rw [List.range_succ, List.filterMap_append, ih, List.take_succ, List.filterMap_append]
    congr 1
    cases h : row[n]? with
    | none => simp [List.filterMap_cons, h, List.getD_eq_getElem?_getD]
    | some v => cases v <;> simp [List.filterMap_cons, h, List.getD_eq_getElem?_getD]

/-! ### Row-level facts about the reflow helpers -/

theorem leftRow_length (cols : Nat) (row : List Cell) :
    (leftRow cols row).length = cols + (row.length - cols) := by
  simp [leftRow]

theorem rightRow_length (cols : Nat) (row : List Cell) :
    (rightRow cols row).length = cols + (row.length - cols) := by
  simp [rightRow]

theorem splitRow_length (cols : Nat) (row : List Cell) :
    (splitRow cols row).length = cols + (row.length - cols) := by
  simp [splitRow]

theorem leftRow_drop (cols : Nat) (row : List Cell) :
    (leftRow cols row).drop cols = row.drop cols :=
  List.drop_left' (by simp)

theorem rightRow_drop (cols : Nat) (row : List Cell) :
    (rightRow cols row).drop cols = row.drop cols :=
  List.drop_left' (by simp)

theorem splitRow_drop (cols : Nat) (row : List Cell) :
    (splitRow cols row).drop cols = row.drop cols :=
  List.drop_left' (by simp)

theorem rowTilesUpTo_leftRow (cols : Nat) (row : List Cell) :
    rowTilesUpTo cols (leftRow cols row) = rowTilesUpTo cols row := by
  have hc : ∀ c ∈ List.range cols,
      (leftRow cols row).getD c none = (rowTilesUpTo cols row).get? c := by
    intro c hcm
    exact getD_map_range_append _ _ _ (List.mem_range.mp hcm) _
  show (List.range cols).filterMap (fun c => (leftRow cols row).getD c none) = _
  rw [List.filterMap_congr hc, filterMap_get?_range,
    List.take_of_length_le (rowTilesUpTo_length_le cols row)]

theorem rowTilesUpTo_rightRow (cols : Nat) (row : List Cell) :
    rowTilesUpTo cols (rightRow cols row) = rowTilesUpTo cols row := by
  have hc : ∀ c ∈ List.range cols,
      (rightRow cols row).getD c none =
        (if cols ≤ (rowTilesUpTo cols row).length + c then
          (rowTilesUpTo cols row).get? ((rowTilesUpTo cols row).length + c - cols)
        else none) := by
    intro c hcm
    exact getD_map_range_append _ _ _ (List.mem_range.mp hcm) _
  show (List.range cols).filterMap (fun c => (rightRow cols row).getD c none) = _
  rw [List.filterMap_congr hc,
    filterMap_shifted _ _ (rowTilesUpTo_length_le cols row)]

theorem rowTilesUpTo_splitRow (cols : Nat) (row : List Cell) :
    rowTilesUpTo cols (splitRow cols row) = rowTilesUpTo cols row := by
  have hc : ∀ c ∈ List.range cols,
      (splitRow cols row).getD c none =
        (if cols - ((rowTilesUpTo cols row).drop (((rowTilesUpTo cols row).length + 1) / 2)).length ≤ c then
          ((rowTilesUpTo cols row).drop (((rowTilesUpTo cols row).length + 1) / 2)).get?
            (c - (cols - ((rowTilesUpTo cols row).drop (((rowTilesUpTo cols row).length + 1) / 2)).length))
        else if c < ((rowTilesUpTo cols row).take (((rowTilesUpTo cols row).length + 1) / 2)).length then
          ((rowTilesUpTo cols row).take (((rowTilesUpTo cols row).length + 1) / 2)).get? c
        else none) := by
    intro c hcm
    exact getD_map_range_append _ _ _ (List.mem_range.mp hcm) _
  show (List.range cols).filterMap (fun c => (splitRow cols row).getD c none) = _
  rw [List.filterMap_congr hc, filterMap_split _ _ _
    (by
      have h1 := rowTilesUpTo_length_le cols row
      simp only [List.length_take, List.length_drop]
      omega),
    List.take_append_drop]

theorem leftRow_idem (cols : Nat) (row : List Cell) :
    leftRow cols (leftRow cols row) = leftRow cols row := by
  show ((List.range cols).map (fun c => (rowTilesUpTo cols (leftRow cols row)).get? c)) ++
      (leftRow cols row).drop cols = leftRow cols row
  rw [rowTilesUpTo_leftRow, leftRow_drop]
  rfl

theorem rightRow_idem (cols : Nat) (row : List Cell) :
    rightRow cols (rightRow cols row) = rightRow cols row := by
  show ((List.range cols).map (fun c =>
      if cols ≤ (rowTilesUpTo cols (rightRow cols row)).length + c then
        (rowTilesUpTo cols (rightRow cols row)).get?
          ((rowTilesUpTo cols (rightRow cols row)).length + c - cols)
      else none)) ++ (rightRow cols row).drop cols = rightRow cols row
  rw [rowTilesUpTo_rightRow, rightRow_drop]
  rfl

theorem splitRow_idem (cols : Nat) (row : List Cell) :
    splitRow cols (splitRow cols row) = splitRow cols row := by
  show ((List.range cols).map (fun c =>
      if cols - ((rowTilesUpTo cols (splitRow cols row)).drop
          (((rowTilesUpTo cols (splitRow cols row)).length + 1) / 2)).length ≤ c then
        ((rowTilesUpTo cols (splitRow cols row)).drop
          (((rowTilesUpTo cols (splitRow cols row)).length + 1) / 2)).get?
          (c - (cols - ((rowTilesUpTo cols (splitRow cols row)).drop
            (((rowTilesUpTo cols (splitRow cols row)).length + 1) / 2)).length))
      else if c < ((rowTilesUpTo cols (splitRow cols row)).take
          (((rowTilesUpTo cols (splitRow cols row)).length + 1) / 2)).length then
        ((rowTilesUpTo cols (splitRow cols row)).take
          (((rowTilesUpTo cols (splitRow cols row)).length + 1) / 2)).get? c
      else none)) ++ (splitRow cols row).drop cols = splitRow cols row
  rw [rowTilesUpTo_splitRow, splitRow_drop]
  rfl

/-- Idempotence of a per-row reflow applied through `List.map`, given the
length and row-level idempotence facts. -/
theorem map_rowFn_idem (f : Nat → List Cell → List Cell)
    (hlen : ∀ cols row, (f cols row).length = cols + (row.length - cols))
    (hidem : ∀ cols row, f cols (f cols row) = f cols row) (b : Board) :
    (b.map (f (colsOf b))).map (f (colsOf (b.map (f (colsOf b))))) =
      b.map (f (colsOf b)) := by
  have hcols : colsOf (b.map (f (colsOf b))) = colsOf b := by
    cases b with
    | nil => rfl
    | cons r0 rest =>
      show (f (colsOf (r0 :: rest)) r0).length = colsOf (r0 :: rest)
      rw [hlen]
      have : colsOf (r0 :: rest) = r0.length := rfl
      omega
  rw [hcols, List.map_map]
  apply List.map_congr_left
  intro row _
  exact hidem (colsOf b) row

/-! ### The column modes -/

theorem rowsOf_applyUp (b : Board) : rowsOf (applyGravityEffect b .Up) = rowsOf b := by
  show ((List.range (rowsOf b)).map _).length = rowsOf b
  simp

theorem rowsOf_applyDown (b : Board) : rowsOf (applyGravityEffect b .Down) = rowsOf b := by
  show ((List.range (rowsOf b)).map _).length = rowsOf b
  simp

theorem upRow_length (b : Board) (r : Nat) :
    (upRow b r).length = colsOf b + ((b.getD r []).length - colsOf b) := by
  simp [upRow]

theorem downRow_length (b : Board) (r : Nat) :
    (downRow b r).length = colsOf b + ((b.getD r []).length - colsOf b) := by
  simp [downRow]

theorem headD_eq_getD_zero (b : Board) : b.headD [] = b.getD 0 [] := by
  cases b <;> rfl

theorem colsOf_applyUp (b : Board) : colsOf (applyGravityEffect b .Up) = colsOf b := by
  cases b with
  | nil => rfl
  | cons r0 rest =>
    show colsOf ((List.range (rowsOf (r0 :: rest))).map (fun r => upRow (r0 :: rest) r)) =
      colsOf (r0 :: rest)
    rw [show rowsOf (r0 :: rest) = rest.length + 1 from rfl, List.range_succ_eq_map,
      List.map_cons]
    show (upRow (r0 :: rest) 0).length = colsOf (r0 :: rest)
    rw [upRow_length]
    have h1 : ((r0 :: rest).getD 0 []).length = r0.length := rfl
    have h2 : colsOf (r0 :: rest) = r0.length := rfl
    omega

theorem colsOf_applyDown (b : Board) : colsOf (applyGravityEffect b .Down) = colsOf b := by
  cases b with
  | nil => rfl
  | cons r0 rest =>
    show colsOf ((List.range (rowsOf (r0 :: rest))).map (fun r => downRow (r0 :: rest) r)) =
      colsOf (r0 :: rest)
    rw [show rowsOf (r0 :: rest) = rest.length + 1 from rfl, List.range_succ_eq_map,
      List.map_cons]
    show (downRow (r0 :: rest) 0).length = colsOf (r0 :: rest)
    rw [downRow_length]
    have h1 : ((r0 :: rest).getD 0 []).length = r0.length := rfl
    have h2 : colsOf (r0 :: rest) = r0.length := rfl
    omega

theorem getD_applyUp (b : Board) {r : Nat} (h : r < rowsOf b) :
    (applyGravityEffect b .Up).getD r [] = upRow b r := by
  show ((List.range (rowsOf b)).map (fun r => upRow b r)).getD r [] = upRow b r
  rw [List.getD_eq_getElem?_getD, List.getElem?_map, List.getElem?_range h]
  rfl

theorem getD_applyDown (b : Board) {r : Nat} (h : r < rowsOf b) :
    (applyGravityEffect b .Down).getD r [] = downRow b r := by
  show ((List.range (rowsOf b)).map (fun r => downRow b r)).getD r [] = downRow b r
  rw [List.getD_eq_getElem?_getD, List.getElem?_map, List.getElem?_range h]
  rfl

theorem colTilesOf_applyUp (b : Board) {c : Nat} (h : c < colsOf b) :
    colTilesOf (applyGravityEffect b .Up) c = colTilesOf b c := by
  unfold colTilesOf
  rw [rowsOf_applyUp]
  have hc : ∀ r ∈ List.range (rowsOf b),
      ((applyGravityEffect b .Up).getD r []).getD c none = (colTilesOf b c).get? r := by
    intro r hr
    rw [getD_applyUp b (List.mem_range.mp hr)]
    exact getD_map_range_append _ _ _ h _
  rw [List.filterMap_congr hc, filterMap_get?_range,
    List.take_of_length_le (colTilesOf_length_le b c)]
  rfl

theorem colTilesOf_applyDown (b : Board) {c : Nat} (h : c < colsOf b) :
    colTilesOf (applyGravityEffect b .Down) c = colTilesOf b c := by
  unfold colTilesOf
  rw [rowsOf_applyDown]
  have hc : ∀ r ∈ List.range (rowsOf b),
      ((applyGravityEffect b .Down).getD r []).getD c none =
        (if rowsOf b ≤ (colTilesOf b c).length + r then
          (colTilesOf b c).get? ((colTilesOf b c).length + r - rowsOf b)
        else none) := by
    intro r hr
    rw [getD_applyDown b (List.mem_range.mp hr)]
    exact getD_map_range_append _ _ _ h _
  rw [List.filterMap_congr hc, filterMap_shifted _ _ (colTilesOf_length_le b c)]
  rfl

theorem upRow_drop (b : Board) (r : Nat) :
    (upRow b r).drop (colsOf b) = (b.getD r []).drop (colsOf b) :=
  List.drop_left' (by simp)

theorem downRow_drop (b : Board) (r : Nat) :
    (downRow b r).drop (colsOf b) = (b.getD r []).drop (colsOf b) :=
  List.drop_left' (by simp)

/-- **C6, mode `Up`.** -/
theorem applyGravityEffect_up_idem (b : Board) :
    applyGravityEffect (applyGravityEffect b .Up) .Up = applyGravityEffect b .Up := by
  show (List.range (rowsOf (applyGravityEffect b .Up))).map
      (fun r => upRow (applyGravityEffect b .Up) r) =
    (List.range (rowsOf b)).map (fun r => upRow b r)
  rw [rowsOf_applyUp]
  apply List.map_congr_left
  intro r hr
  have hr' := List.mem_range.mp hr
  show ((List.range (colsOf (applyGravityEffect b .Up))).map
      (fun c => (colTilesOf (applyGravityEffect b .Up) c).get? r)) ++
      ((applyGravityEffect b .Up).getD r []).drop (colsOf (applyGravityEffect b .Up)) =
    upRow b r
  rw [colsOf_applyUp, getD_applyUp b hr', upRow_drop]
  have hmap : (List.range (colsOf b)).map
      (fun c => (colTilesOf (applyGravityEffect b .Up) c).get? r) =
      (List.range (colsOf b)).map (fun c => (colTilesOf b c).get? r) := by
    apply List.map_congr_left
    intro c hcm
    rw [colTilesOf_applyUp b (List.mem_range.mp hcm)]
  rw [hmap]
  rfl

/-- **C6, mode `Down`.** -/
theorem applyGravityEffect_down_idem (b : Board) :
    applyGravityEffect (applyGravityEffect b .Down) .Down = applyGravityEffect b .Down := by
  show (List.range (rowsOf (applyGravityEffect b .Down))).map
      (fun r => downRow (applyGravityEffect b .Down) r) =
    (List.range (rowsOf b)).map (fun r => downRow b r)
  rw [rowsOf_applyDown]
  apply List.map_congr_left
  intro r hr
  have hr' := List.mem_range.mp hr
  show ((List.range (colsOf (applyGravityEffect b .Down))).map
      (fun c =>
        if rowsOf (applyGravityEffect b .Down) ≤
            (colTilesOf (applyGravityEffect b .Down) c).length + r then
          (colTilesOf (applyGravityEffect b .Down) c).get?
            ((colTilesOf (applyGravityEffect b .Down) c).length + r -
              rowsOf (applyGravityEffect b .Down))
        else none)) ++
      ((applyGravityEffect b .Down).getD r []).drop (colsOf (applyGravityEffect b .Down)) =
    downRow b r
  rw [colsOf_applyDown, getD_applyDown b hr', downRow_drop, rowsOf_applyDown]
  have hmap : (List.range (colsOf b)).map
      (fun c =>
        if rowsOf b ≤ (colTilesOf (applyGravityEffect b .Down) c).length + r then
          (colTilesOf (applyGravityEffect b .Down) c).get?
            ((colTilesOf (applyGravityEffect b .Down) c).length + r - rowsOf b)
        else none) =
      (List.range (colsOf b)).map
      (fun c =>
        if rowsOf b ≤ (colTilesOf b c).length + r then
          (colTilesOf b c).get? ((colTilesOf b c).length + r - rowsOf b)
        else none) := by
    apply List.map_congr_left
    intro c hcm
    rw [colTilesOf_applyDown b (List.mem_range.mp hcm)]
  rw [hmap]
  rfl

/-- **C6.**  `applyGravityEffect` is idempotent: for every board and every
layout mode, applying the reflow twice equals applying it once. -/
theorem applyGravityEffect_idem (b : Board) (m : LayoutMode) :
    applyGravityEffect (applyGravityEffect b m) m = applyGravityEffect b m := by
  cases m with
  | Static => rfl
  | Left => exact map_rowFn_idem leftRow leftRow_length leftRow_idem b
  | Right => exact map_rowFn_idem rightRow rightRow_length rightRow_idem b
  | Up => exact applyGravityEffect_up_idem b
  | Down => exact applyGravityEffect_down_idem b
  | Split => exact map_rowFn_idem splitRow splitRow_length splitRow_idem b

/-! ## C10: the gravity engine preserves the multiset of tiles -/

theorem coe_filterMap_range (f : Nat → Option α) (n : Nat) :
    (((List.range n).filterMap f : List α) : Multiset α) =
      ∑ i ∈ Finset.range n, ((f i).toList : Multiset α) := by
  induction n with
  | zero => rfl
  | succ n ih =>
    have hsingle : ((List.filterMap f [n] : List α) : Multiset α) =
        ((f n).toList : Multiset α) := by
      cases h : f n <;> simp [List.filterMap_cons, h]
    rw [List.range_succ, List.filterMap_append, ← Multiset.coe_add, ih,
      Finset.sum_range_succ, hsingle]

theorem flattenTiles_multiset (b : Board) :
    ((flattenTiles b : List Tile) : Multiset Tile) =
      ∑ r ∈ Finset.range b.length, (((b.getD r []).filterMap id : List Tile) : Multiset Tile) := by
  induction b with
  | nil => rfl
  | cons row rest ih =>
    have hflat : flattenTiles (row :: rest) = row.filterMap id ++ flattenTiles rest := by
      simp [flattenTiles]
    rw [hflat, ← Multiset.coe_add, ih,
      show (row :: rest).length = rest.length + 1 from rfl, Finset.sum_range_succ']
    have hsucc : ∀ k ∈ Finset.range rest.length,
        ((((row :: rest).getD (k + 1) []).filterMap id : List Tile) : Multiset Tile) =
          (((rest.getD k []).filterMap id : List Tile) : Multiset Tile) := by
      intro k _
      rfl
    rw [Finset.sum_congr rfl hsucc]
    have h0 : ((((row :: rest).getD 0 []).filterMap id : List Tile) : Multiset Tile) =
        ((row.filterMap id : List Tile) : Multiset Tile) := rfl
    rw [h0, add_comm]

theorem filterMap_id_leftRow (cols : Nat) (row : List Cell) :
    (leftRow cols row).filterMap id = row.filterMap id := by
  show (((List.range cols).map (fun c => (rowTilesUpTo cols row).get? c)) ++
      row.drop cols).filterMap id = row.filterMap id
  rw [List.filterMap_append, List.filterMap_map, Function.id_comp,
    filterMap_get?_range, List.take_of_length_le (rowTilesUpTo_length_le cols row),
    rowTilesUpTo_eq_take]
  conv_rhs => rw [← List.take_append_drop cols row, List.filterMap_append]

theorem filterMap_id_rightRow (cols : Nat) (row : List Cell) :
    (rightRow cols row).filterMap id = row.filterMap id := by
  show (((List.range cols).map (fun c =>
      if cols ≤ (rowTilesUpTo cols row).length + c then
        (rowTilesUpTo cols row).get? ((rowTilesUpTo cols row).length + c - cols)
      else none)) ++ row.drop cols).filterMap id = row.filterMap id
  rw [List.filterMap_append, List.filterMap_map, Function.id_comp,
    filterMap_shifted _ _ (rowTilesUpTo_length_le cols row), rowTilesUpTo_eq_take]
  conv_rhs => rw [← List.take_append_drop cols row, List.filterMap_append]

theorem filterMap_id_splitRow (cols : Nat) (row : List Cell) :
    (splitRow cols row).filterMap id = row.filterMap id := by
  show (((List.range cols).map (fun c =>
      if cols - ((rowTilesUpTo cols row).drop (((rowTilesUpTo cols row).length + 1) / 2)).length ≤ c then
        ((rowTilesUpTo cols row).drop (((rowTilesUpTo cols row).length + 1) / 2)).get?
          (c - (cols - ((rowTilesUpTo cols row).drop (((rowTilesUpTo cols row).length + 1) / 2)).length))
      else if c < ((rowTilesUpTo cols row).take (((rowTilesUpTo cols row).length + 1) / 2)).length then
        ((rowTilesUpTo cols row).take (((rowTilesUpTo cols row).length + 1) / 2)).get? c
      else none)) ++ row.drop cols).filterMap id = row.filterMap id
  rw [List.filterMap_append, List.filterMap_map, Function.id_comp,
    filterMap_split _ _ _
      (by
        have h1 := rowTilesUpTo_length_le cols row
        simp only [List.length_take, List.length_drop]
        omega),
    List.take_append_drop, rowTilesUpTo_eq_take]
  conv_rhs => rw [← List.take_append_drop cols row, List.filterMap_append]

theorem flattenTiles_map_rowFn (f : Nat → List Cell → List Cell)
    (hf : ∀ cols row, (f cols row).filterMap id = row.filterMap id) (b : Board) :
    flattenTiles (b.map (f (colsOf b))) = flattenTiles b := by
  unfold flattenTiles
  rw [List.map_map]
  congr 1
  apply List.map_congr_left
  intro row _
  exact hf (colsOf b) row

theorem flattenTiles_applyUp_multiset (b : Board) :
    ((flattenTiles (applyGravityEffect b .Up) : List Tile) : Multiset Tile) =
      (flattenTiles b : Multiset Tile) := by
  rw [flattenTiles_multiset, flattenTiles_multiset]
  rw [show (applyGravityEffect b .Up).length = rowsOf b from rowsOf_applyUp b,
    show List.length b = rowsOf b from rfl]
  have hterm : ∀ r ∈ Finset.range (rowsOf b),
      ((((applyGravityEffect b .Up).getD r []).filterMap id : List Tile) : Multiset Tile) =
        (((List.range (colsOf b)).filterMap (fun c => (colTilesOf b c).get? r) : List Tile) :
            Multiset Tile) +
          ((((b.getD r []).drop (colsOf b)).filterMap id : List Tile) : Multiset Tile) := by
    intro r hr
    rw [getD_applyUp b (Finset.mem_range.mp hr)]
    show (((((List.range (colsOf b)).map (fun c => (colTilesOf b c).get? r)) ++
        (b.getD r []).drop (colsOf b)).filterMap id : List Tile) : Multiset Tile) = _
    rw [List.filterMap_append, List.filterMap_map, Function.id_comp, ← Multiset.coe_add]
  have hterm2 : ∀ r ∈ Finset.range (rowsOf b),
      (((b.getD r []).filterMap id : List Tile) : Multiset Tile) =
        ((rowTilesUpTo (colsOf b) (b.getD r []) : List Tile) : Multiset Tile) +
          ((((b.getD r []).drop (colsOf b)).filterMap id : List Tile) : Multiset Tile) := by
    intro r _
    conv_lhs => rw [← List.take_append_drop (colsOf b) (b.getD r [])]
    rw [List.filterMap_append, ← Multiset.coe_add, rowTilesUpTo_eq_take]
  rw [Finset.sum_congr rfl hterm, Finset.sum_congr rfl hterm2,
    Finset.sum_add_distrib, Finset.sum_add_distrib]
  congr 1
  have hL : ∀ r ∈ Finset.range (rowsOf b),
      (((List.range (colsOf b)).filterMap (fun c => (colTilesOf b c).get? r) : List Tile) :
          Multiset Tile) =
        ∑ c ∈ Finset.range (colsOf b), (((colTilesOf b c).get? r).toList : Multiset Tile) := by
    intro r _
    exact coe_filterMap_range _ _
  have hR : ∀ r ∈ Finset.range (rowsOf b),
      ((rowTilesUpTo (colsOf b) (b.getD r []) : List Tile) : Multiset Tile) =
        ∑ c ∈ Finset.range (colsOf b), (((b.getD r []).getD c none).toList : Multiset Tile) := by
    intro r _
    exact coe_filterMap_range _ _
  rw [Finset.sum_congr rfl hL, Finset.sum_congr rfl hR]
  have hLHS : (∑ r ∈ Finset.range (rowsOf b), ∑ c ∈ Finset.range (colsOf b),
      (((colTilesOf b c).get? r).toList : Multiset Tile)) =
      ∑ c ∈ Finset.range (colsOf b), ((colTilesOf b c : List Tile) : Multiset Tile) := by
    rw [Finset.sum_comm]
    apply Finset.sum_congr rfl
    intro c _
    rw [← coe_filterMap_range, filterMap_get?_range_of_le (colTilesOf_length_le b c)]
  have hRHS : (∑ r ∈ Finset.range (rowsOf b), ∑ c ∈ Finset.range (colsOf b),
      (((b.getD r []).getD c none).toList : Multiset Tile)) =
      ∑ c ∈ Finset.range (colsOf b), ((colTilesOf b c : List Tile) : Multiset Tile) := by
    rw [Finset.sum_comm]
    apply Finset.sum_congr rfl
    intro c _
    rw [← coe_filterMap_range]
    rfl
  rw [hLHS, hRHS]

theorem flattenTiles_applyDown_multiset (b : Board) :
    ((flattenTiles (applyGravityEffect b .Down) : List Tile) : Multiset Tile) =
      (flattenTiles b : Multiset Tile) := by
  rw [flattenTiles_multiset, flattenTiles_multiset]
  rw [show (applyGravityEffect b .Down).length = rowsOf b from rowsOf_applyDown b,
    show List.length b = rowsOf b from rfl]
  have hterm : ∀ r ∈ Finset.range (rowsOf b),
      ((((applyGravityEffect b .Down).getD r []).filterMap id : List Tile) : Multiset Tile) =
        (((List.range (colsOf b)).filterMap (fun c =>
            if rowsOf b ≤ (colTilesOf b c).length + r then
              (colTilesOf b c).get? ((colTilesOf b c).length + r - rowsOf b)
            else none) : List Tile) : Multiset Tile) +
          ((((b.getD r []).drop (colsOf b)).filterMap id : List Tile) : Multiset Tile) := by
    intro r hr
    rw [getD_applyDown b (Finset.mem_range.mp hr)]
    show (((((List.range (colsOf b)).map (fun c =>
        if rowsOf b ≤ (colTilesOf b c).length + r then
          (colTilesOf b c).get? ((colTilesOf b c).length + r - rowsOf b)
        else none)) ++ (b.getD r []).drop (colsOf b)).filterMap id : List Tile) :
          Multiset Tile) = _
    rw [List.filterMap_append, List.filterMap_map, Function.id_comp, ← Multiset.coe_add]
  have hterm2 : ∀ r ∈ Finset.range (rowsOf b),
      (((b.getD r []).filterMap id : List Tile) : Multiset Tile) =
        ((rowTilesUpTo (colsOf b) (b.getD r []) : List Tile) : Multiset Tile) +
          ((((b.getD r []).drop (colsOf b)).filterMap id : List Tile) : Multiset Tile) := by
    intro r _
    conv_lhs => rw [← List.take_append_drop (colsOf b) (b.getD r [])]
    rw [List.filterMap_append, ← Multiset.coe_add, rowTilesUpTo_eq_take]
  rw [Finset.sum_congr rfl hterm, Finset.sum_congr rfl hterm2,
    Finset.sum_add_distrib, Finset.sum_add_distrib]
  congr 1
  have hL : ∀ r ∈ Finset.range (rowsOf b),
      (((List.range (colsOf b)).filterMap (fun c =>
          if rowsOf b ≤ (colTilesOf b c).length + r then
            (colTilesOf b c).get? ((colTilesOf b c).length + r - rowsOf b)
          else none) : List Tile) : Multiset Tile) =
        ∑ c ∈ Finset.range (colsOf b),
          (((if rowsOf b ≤ (colTilesOf b c).length + r then
              (colTilesOf b c).get? ((colTilesOf b c).length + r - rowsOf b)
            else none).toList : List Tile) : Multiset Tile) := by
    intro r _
    exact coe_filterMap_range _ _
  have hR : ∀ r ∈ Finset.range (rowsOf b),
      ((rowTilesUpTo (colsOf b) (b.getD r []) : List Tile) : Multiset Tile) =
        ∑ c ∈ Finset.range (colsOf b), (((b.getD r []).getD c none).toList : Multiset Tile) := by
    intro r _
    exact coe_filterMap_range _ _
  rw [Finset.sum_congr rfl hL, Finset.sum_congr rfl hR]
  have hLHS : (∑ r ∈ Finset.range (rowsOf b), ∑ c ∈ Finset.range (colsOf b),
      (((if rowsOf b ≤ (colTilesOf b c).length + r then
          (colTilesOf b c).get? ((colTilesOf b c).length + r - rowsOf b)
        else none).toList : List Tile) : Multiset Tile)) =
      ∑ c ∈ Finset.range (colsOf b), ((colTilesOf b c : List Tile) : Multiset Tile) := by
    rw [Finset.sum_comm]
    apply Finset.sum_congr rfl
    intro c _
    rw [← coe_filterMap_range, filterMap_shifted _ _ (colTilesOf_length_le b c)]
  have hRHS : (∑ r ∈ Finset.range (rowsOf b), ∑ c ∈ Finset.range (colsOf b),
      (((b.getD r []).getD c none).toList : Multiset Tile)) =
      ∑ c ∈ Finset.range (colsOf b), ((colTilesOf b c : List Tile) : Multiset Tile) := by
    rw [Finset.sum_comm]
    apply Finset.sum_congr rfl
    intro c _
    rw [← coe_filterMap_range]
    rfl
  rw [hLHS, hRHS]

/-- Helper: every gravity mode preserves the multiset of non-empty tiles. -/
theorem flattenTiles_gravity_multiset (b : Board) (m : LayoutMode) :
    ((flattenTiles (applyGravityEffect b m) : List Tile) : Multiset Tile) =
      (flattenTiles b : Multiset Tile) := by
  cases m with
  | Static => rfl
  | Left =>
    rw [show applyGravityEffect b .Left = b.map (leftRow (colsOf b)) from rfl,
      flattenTiles_map_rowFn leftRow filterMap_id_leftRow b]
  | Right =>
    rw [show applyGravityEffect b .Right = b.map (rightRow (colsOf b)) from rfl,
      flattenTiles_map_rowFn rightRow filterMap_id_rightRow b]
  | Up => exact flattenTiles_applyUp_multiset b
  | Down => exact flattenTiles_applyDown_multiset b
  | Split =>
    rw [show applyGravityEffect b .Split = b.map (splitRow (colsOf b)) from rfl,
      flattenTiles_map_rowFn splitRow filterMap_id_splitRow b]

/-- **C10.**  Every gravity mode only rearranges tiles: the multiset of
non-empty tile values of `applyGravityEffect b m` equals that of `b` — no
tile is created, destroyed, or changed in kind. -/
theorem applyGravityEffect_preserves_tiles (b : Board) (m : LayoutMode) :
    ((flattenTiles (applyGravityEffect b m) : List Tile) : Multiset Tile) =
      (flattenTiles b : Multiset Tile) :=
  flattenTiles_gravity_multiset b m

/-- A concrete 2×2 board for the C4 witness: two tiles of the same kind on
the main diagonal, both corner cells empty. -/
def exC4 : Board := [[some 0, none], [none, some 0]]

/-- Witness for C4: instantiation at the diagonal pair of `exC4`. -/
theorem findPath_one_turn_spec_witness :
    isEmptyAt exC4 0 0 = false ∧ isEmptyAt exC4 1 1 = false ∧
    findStraightPath exC4 0 0 1 1 = none ∧
    (findPath exC4 0 0 1 1).map Prod.fst = some 1 :=
  ⟨by decide, by decide, by decide,
    (findPath_one_turn_spec exC4 0 0 1 1 (by decide) (by decide) (by decide)).1.mpr
      (Or.inl ⟨by decide, by decide, by decide⟩)⟩

/-! ## C9: the shuffle-until-solvable repair loop -/

/-- The sequence of candidate boards produced by `shuffleUntilSolvable`:
each attempt reshuffles the (cumulatively shuffled) tiles, refills the
board shape of `b`, and reflows. -/
def shuffleAttempts (layout : LayoutMode) (b : Board) :
    List Tile → List Nat → Nat → List Board
  | _, _, 0 => []
  | fl, js, n + 1 =>
    applyGravityEffect (refillBoard b (fisherYates fl js)) layout ::
      shuffleAttempts layout b (fisherYates fl js) (js.drop (fl.length - 1)) n

theorem shuffleAttempts_length (layout : LayoutMode) (b : Board) :
    ∀ n fl js, (shuffleAttempts layout b fl js n).length = n := by
  intro n
  induction n with
  | zero => intro fl js; rfl
  | succ n ih =>
    intro fl js
    show (shuffleAttempts layout b fl js (n + 1)).length = n + 1
    rw [show shuffleAttempts layout b fl js (n + 1) =
      applyGravityEffect (refillBoard b (fisherYates fl js)) layout ::
        shuffleAttempts layout b (fisherYates fl js) (js.drop (fl.length - 1)) n from rfl]
    rw [List.length_cons, ih]

theorem shuffleLoop_eq_find (stateB : Board) (layout : LayoutMode) (b : Board) :
    ∀ n fl js, shuffleLoop stateB layout b fl js n =
      ((shuffleAttempts layout b fl js n).find?
        (fun bd => isBoardSolvable stateB bd)).getD b := by
  intro n
  induction n with
  | zero => intro fl js; rfl
  | succ n ih =>
    intro fl js
    rw [show shuffleAttempts layout b fl js (n + 1) =
      applyGravityEffect (refillBoard b (fisherYates fl js)) layout ::
        shuffleAttempts layout b (fisherYates fl js) (js.drop (fl.length - 1)) n from rfl]
    show (if isBoardSolvable stateB
        (applyGravityEffect (refillBoard b (fisherYates fl js)) layout) = true then
        applyGravityEffect (refillBoard b (fisherYates fl js)) layout
      else shuffleLoop stateB layout b (fisherYates fl js) (js.drop (fl.length - 1)) n) = _
    cases hsolv : isBoardSolvable stateB
        (applyGravityEffect (refillBoard b (fisherYates fl js)) layout) with
    | false =>
      rw [if_neg Bool.false_ne_true, List.find?_cons_of_neg _ (by simp [hsolv])]
      exact ih _ _
    | true =>
      rw [if_pos rfl, List.find?_cons_of_pos _ (by simp [hsolv])]
      rfl

/-- **C9.**  `shuffleUntilSolvable` performs at most `maxTries`
shuffle-reflow-test iterations (the attempt sequence has exactly `maxTries`
entries) and always terminates; it returns the first shuffled-and-reflowed
board that `isBoardSolvable` accepts, and when no attempt succeeds it
returns its input board unchanged (`Option.getD b` of `find?`). -/
theorem shuffleUntilSolvable_spec (stateB : Board) (layout : LayoutMode) (b : Board)
    (js : List Nat) (maxTries : Nat) :
    (shuffleAttempts layout b (flattenTiles b) js maxTries).length = maxTries ∧
    shuffleUntilSolvable stateB layout b js maxTries =
      ((shuffleAttempts layout b (flattenTiles b) js maxTries).find?
        (fun bd => isBoardSolvable stateB bd)).getD b :=
  ⟨shuffleAttempts_length layout b maxTries (flattenTiles b) js,
    shuffleLoop_eq_find stateB layout b maxTries (flattenTiles b) js⟩

/-! ## The Fisher–Yates shuffle permutes its input -/

theorem listSwap_length (l : List α) (i j : Nat) : (listSwap l i j).length = l.length := by
  unfold listSwap
  cases l.get? i <;> cases l.get? j <;> simp

theorem cons_set_perm {l : List α} {j : Nat} {y : α} (a : α) (h : l.get? j = some y) :
    (y :: l.set j a).Perm (a :: l) := by
  induction j generalizing l with
  | zero =>
    cases l with
    | nil => cases h
    | cons b t =>
      have hb : b = y := by simpa using h
      subst hb
      exact List.Perm.swap a b t
  | succ j ih =>
    cases l with
    | nil => cases h
    | cons b t =>
      have h' : t.get? j = some y := h
      show (y :: b :: t.set j a).Perm (a :: b :: t)
      exact ((List.Perm.swap b y _).trans ((ih h').cons b)).trans (List.Perm.swap a b t)

theorem set_set_perm : ∀ (l : List α) (i j : Nat) (x y : α), l.get? i = some x →
    l.get? j = some y → ((l.set i y).set j x).Perm l := by
  intro l
  induction l with
  | nil => intro i j x y hi _; cases hi
  | cons a t ih =>
    intro i j x y hi hj
    cases i with
    | zero =>
      have hx : x = a := by simpa using hi.symm
      subst hx
      cases j with
      | zero =>
        have hy : y = x := by simpa using hj.symm
        subst hy
        exact List.Perm.refl _
      | succ j =>
        have hj' : t.get? j = some y := hj
        exact cons_set_perm x hj'
    | succ i =>
      have hi' : t.get? i = some x := hi
      cases j with
      | zero =>
        have hy : y = a := by simpa using hj.symm
        subst hy
        exact cons_set_perm y hi'
      | succ j =>
        have hj' : t.get? j = some y := hj
        exact (ih i j x y hi' hj').cons a

theorem listSwap_perm (l : List α) (i j : Nat) : (listSwap l i j).Perm l := by
  unfold listSwap
  cases hi : l.get? i with
  | none => exact List.Perm.refl l
  | some x =>
    cases hj : l.get? j with
    | none => exact List.Perm.refl l
    | some y => exact set_set_perm l i j x y hi hj

theorem fyLoop_perm : ∀ (n : Nat) (l : List α) (js : List Nat), (fyLoop l js n).Perm l := by
  intro n
  induction n with
  | zero => intro l js; exact List.Perm.refl l
  | succ n ih =>
    intro l js
    exact (ih _ _).trans (listSwap_perm _ _ _)

theorem fisherYates_perm (l : List α) (js : List Nat) : (fisherYates l js).Perm l :=
  fyLoop_perm _ _ _

theorem fisherYates_length (l : List α) (js : List Nat) :
    (fisherYates l js).length = l.length :=
  (fisherYates_perm l js).length_eq

/-! ## Counting the tiles of a freshly packed grid -/

/-- Helper: the factor pair of `getBoardDimensions` multiplies back to
`size` (shared by several developments below). -/
theorem getBoardDimensions_mul (size : Nat) (h : 0 < size) :
    (getBoardDimensions size).1 * (getBoardDimensions size).2 = size := by
  obtain ⟨_, hdvd, _, _⟩ := dimCandidates_getLastD_spec size h
  rw [getBoardDimensions_eq size h]
  exact Nat.mul_div_cancel' hdvd

theorem flattenTiles_append (b1 b2 : Board) :
    flattenTiles (b1 ++ b2) = flattenTiles b1 ++ flattenTiles b2 := by
  unfold flattenTiles
  rw [List.map_append, List.flatten_append]

theorem flattenTiles_grid (ts : List Tile) (cols : Nat) (pad : Nat → List Cell)
    (hpad : ∀ r, (pad r).filterMap id = []) :
    ∀ rows, flattenTiles ((List.range rows).map (fun r =>
      ((List.range cols).map (fun c => ts.get? (r * cols + c))) ++ pad r)) =
      ts.take (rows * cols) := by
  intro rows
  induction rows with
  | zero => simp [flattenTiles]
  | succ n ih =>
    rw [List.range_succ, List.map_append, flattenTiles_append, ih]
    have hrow : flattenTiles (List.map (fun r =>
        ((List.range cols).map (fun c => ts.get? (r * cols + c))) ++ pad r) [n]) =
        (ts.drop (n * cols)).take cols := by
      show ((((List.range cols).map (fun c => ts.get? (n * cols + c))) ++ pad n).filterMap id)
          ++ [] = _
      rw [List.append_nil, List.filterMap_append, hpad n, List.append_nil,
        List.filterMap_map, Function.id_comp]
      have hfn : ∀ c ∈ List.range cols,
          ts.get? (n * cols + c) = (ts.drop (n * cols)).get? c := by
        intro c _
        rw [List.get?_drop]
      rw [List.filterMap_congr hfn, filterMap_get?_range]
    rw [hrow, ← List.take_add, Nat.succ_mul]

theorem pair_tiles_length (n k : Nat) :
    ((List.range n).flatMap (fun i => [i % k, i % k])).length = 2 * n := by
  induction n with
  | zero => rfl
  | succ n ih =>
    rw [List.range_succ, List.flatMap_append, List.length_append, ih]
    simp only [List.flatMap_cons, List.flatMap_nil, List.append_nil, List.length_cons,
      List.length_nil]
    omega

/-- The store's `generateGameBoard` fills the whole `rows × cols = size`
grid, so a fresh board has exactly `size` non-empty cells. -/
theorem countTiles_generateGameBoard (js : List Nat) (size kinds : Nat)
    (heven : Even size) (hpos : 0 < size) :
    countTiles (generateGameBoard js size kinds) = size := by
  show (flattenTiles ((List.range (getBoardDimensions size).1).map (fun r =>
    (List.range (getBoardDimensions size).2).map (fun c =>
      (fisherYates ((List.range (size / 2)).flatMap (fun i => [i % kinds, i % kinds]))
        js).get? (r * (getBoardDimensions size).2 + c))))).length = size
  have hshape : (List.range (getBoardDimensions size).1).map (fun r =>
      (List.range (getBoardDimensions size).2).map (fun c =>
        (fisherYates ((List.range (size / 2)).flatMap (fun i => [i % kinds, i % kinds]))
          js).get? (r * (getBoardDimensions size).2 + c))) =
      (List.range (getBoardDimensions size).1).map (fun r =>
      ((List.range (getBoardDimensions size).2).map (fun c =>
        (fisherYates ((List.range (size / 2)).flatMap (fun i => [i % kinds, i % kinds]))
          js).get? (r * (getBoardDimensions size).2 + c))) ++ (fun _ => ([] : List Cell)) r) := by
    apply List.map_congr_left
    intro r _
    rw [List.append_nil]
  rw [hshape, flattenTiles_grid _ _ (fun _ => ([] : List Cell)) (fun _ => rfl), List.length_take, fisherYates_length,
    pair_tiles_length, getBoardDimensions_mul size hpos]
  have h2 : 2 * (size / 2) = size := by
    obtain ⟨k, hk⟩ := heven
    omega
  rw [h2, Nat.min_self]

/-! ## C3: the oracle path-checks against the component state board -/

/-- The component state board of the C3 failing input: a full 3×3 board
with no same-kind pair. -/
def sbC3 : Board :=
  [[some 0, some 1, some 2], [some 3, some 4, some 5], [some 6, some 7, some 8]]

/-- The argument board of the C3 failing input: two tiles of kind 0 at
`(1,0)` and `(1,2)` with the cell between them empty. -/
def bC3 : Board := [[none, none, none], [some 0, none, some 0], [none, none, none]]

/-- **C3 (code bug).**  `isBoardSolvable(board)` collects the tiles of its
argument but — `findPath(tile1, tile2)` at game.js line 101 omitting the
`boardToCheck` argument — path-checks them on the component's current state
board.  On the failing input, the argument board `bC3` holds two same-kind
tiles joined by a straight path over `bC3` (so the claim's right-hand side
holds and `isDeadlocked bC3 = false`), yet `isBoardSolvable sbC3 bC3`
returns `false` because the paths are tested on the full board `sbC3`. -/
theorem isBoardSolvable_state_board_bug :
    isBoardSolvable sbC3 bC3 = false ∧
    (bC3.getD 1 []).getD 0 none = some 0 ∧
    (bC3.getD 1 []).getD 2 none = some 0 ∧
    (findPath bC3 1 0 1 2).isSome = true ∧
    isDeadlocked bC3 = false ∧
    isBoardSolvable bC3 bC3 = true := by
  exact ⟨by decide, by decide, by decide, by decide, by decide, by decide⟩

/-! ## C1: the generators -/

/-- The random stream of the C1 counterexample (each entry `j` drives one
Fisher–Yates step `i` as `j % (i + 1)`). -/
def jsC1 : List Nat := [8, 10, 12, 8, 0, 2, 4, 6, 2, 6, 0, 4, 2, 0, 0]

/-- **C1 (counterexample).**  `size = 16` is even and `kinds = 8 ∈ [3, 15]`,
yet the store's `generateGameBoard` — which never consults the solvability
oracle — can return a board the oracle rejects: under the random stream
`jsC1` the resulting full board has no connectable pair (it is deadlocked,
not empty). -/
theorem generateGameBoard_unsolvable_counterexample :
    Even 16 ∧ 3 ≤ 8 ∧ 8 ≤ 15 ∧
    isBoardSolvable (generateGameBoard jsC1 16 8) (generateGameBoard jsC1 16 8) = false ∧
    isDeadlocked (generateGameBoard jsC1 16 8) = true := by
  exact ⟨by decide, by decide, by decide, by decide, by decide⟩

theorem genAttempts_spec (stateB : Board) (size kinds : Nat) :
    ∀ (n : Nat) (js : List Nat),
      isBoardSolvable stateB (genAttempts stateB size kinds n js) = true ∨
        ∃ js', genAttempts stateB size kinds n js =
          generateIntelligentBoard stateB size kinds js' := by
  intro n
  induction n with
  | zero => intro js; exact Or.inr ⟨_, rfl⟩
  | succ n ih =>
    intro js
    show isBoardSolvable stateB (if isBoardSolvable stateB (generateBasicBoard js size kinds) = true
        then generateBasicBoard js size kinds
        else genAttempts stateB size kinds n (js.drop (2 * (size / 2) - 1))) = true ∨
      ∃ js', (if isBoardSolvable stateB (generateBasicBoard js size kinds) = true
        then generateBasicBoard js size kinds
        else genAttempts stateB size kinds n (js.drop (2 * (size / 2) - 1))) =
        generateIntelligentBoard stateB size kinds js'
    by_cases h : isBoardSolvable stateB (generateBasicBoard js size kinds) = true
    · rw [if_pos h]
      exact Or.inl h
    · rw [if_neg h]
      exact ih _

/-! ## C2: the bomb target selector -/

/-- A well-formed (rectangular) board: every row has the board's width. -/
def WFBoard (b : Board) : Prop := ∀ row ∈ b, row.length = colsOf b

/-- The candidate subsets sampled by the `selectBombTargetsEnsuringSolvable`
loop, in attempt order. -/
def bombCandidates (k : Nat) (tiles : List TilePos) : List Nat → Nat → List (List TilePos)
  | _, 0 => []
  | js, n + 1 =>
    selectRandomSubset tiles k js :: bombCandidates k tiles (js.drop (tiles.length - 1)) n

theorem bombCandidates_length (k : Nat) (tiles : List TilePos) :
    ∀ (n : Nat) (js : List Nat), (bombCandidates k tiles js n).length = n := by
  intro n
  induction n with
  | zero => intro js; rfl
  | succ n ih =>
    intro js
    show (selectRandomSubset tiles k js ::
      bombCandidates k tiles (js.drop (tiles.length - 1)) n).length = n + 1
    rw [List.length_cons, ih]

theorem mem_collectTiles_iff {b : Board} {t : TilePos} :
    t ∈ collectTiles b ↔
      t.row < rowsOf b ∧ t.col < colsOf b ∧
        (b.getD t.row []).getD t.col none = some t.type := by
  unfold collectTiles
  rw [List.mem_flatMap]
  constructor
  · rintro ⟨r, hr, hin⟩
    rw [List.mem_filterMap] at hin
    obtain ⟨c, hc, hmap⟩ := hin
    rw [Option.map_eq_some'] at hmap
    obtain ⟨tile, hcell, heq⟩ := hmap
    cases heq
    exact ⟨List.mem_range.mp hr, List.mem_range.mp hc, hcell⟩
  · rintro ⟨hr, hc, hcell⟩
    refine ⟨t.row, List.mem_range.mpr hr, ?_⟩
    rw [List.mem_filterMap]
    refine ⟨t.col, List.mem_range.mpr hc, ?_⟩
    rw [hcell]
    rfl

theorem flattenTiles_eq_nil_iff (b : Board) :
    flattenTiles b = [] ↔ boardAllEmpty b = true := by
  unfold flattenTiles boardAllEmpty
  rw [List.flatten_eq_nil_iff]
  simp only [List.mem_map, List.all_eq_true, forall_exists_index, and_imp,
    forall_apply_eq_imp_iff₂, List.filterMap_eq_nil_iff, id_eq, Option.isNone_iff_eq_none]

theorem collectTiles_nil_flatten {b : Board} (hwf : WFBoard b)
    (h : collectTiles b = []) : flattenTiles b = [] := by
  rw [flattenTiles_eq_nil_iff]
  unfold boardAllEmpty
  rw [List.all_eq_true]
  intro row hrow
  rw [List.all_eq_true]
  intro cell hcell
  rw [Option.isNone_iff_eq_none]
  by_contra hne
  obtain ⟨ty, hty⟩ := Option.ne_none_iff_exists'.mp hne
  obtain ⟨r, hrlt, hrow'⟩ := List.mem_iff_getElem.mp hrow
  obtain ⟨c, hclt, hcell'⟩ := List.mem_iff_getElem.mp hcell
  have hmem : (⟨r, c, ty⟩ : TilePos) ∈ collectTiles b := by
    rw [mem_collectTiles_iff]
    refine ⟨hrlt, ?_, ?_⟩
    · show c < colsOf b
      have := hwf row hrow
      omega
    · show (b.getD r []).getD c none = some ty
      rw [List.getD_eq_getElem?_getD b r, List.getElem?_eq_getElem hrlt, Option.getD_some,
        hrow', List.getD_eq_getElem?_getD row c, List.getElem?_eq_getElem hclt,
        Option.getD_some, hcell']
      exact hty
  rw [h] at hmem
  cases hmem

theorem flattenTiles_gravity_nil {b : Board} (m : LayoutMode)
    (h : flattenTiles b = []) : flattenTiles (applyGravityEffect b m) = [] := by
  have hms := flattenTiles_gravity_multiset b m
  rw [h] at hms
  exact (Multiset.coe_eq_coe.mp hms).eq_nil

theorem bombAttempts_some (stateB b : Board) (layout : LayoutMode) (k : Nat)
    (tiles : List TilePos) :
    ∀ (n : Nat) (js : List Nat) (ts : List TilePos),
      bombAttempts stateB b layout k tiles n js = some ts →
      isBoardSolvable stateB (simulateRemovalAndGravity b layout ts) = true := by
  intro n
  induction n with
  | zero => intro js ts h; cases h
  | succ n ih =>
    intro js ts h
    by_cases hs : isBoardSolvable stateB
        (simulateRemovalAndGravity b layout (selectRandomSubset tiles k js)) = true
    · have hts : selectRandomSubset tiles k js = ts := by
        have h' : (some (selectRandomSubset tiles k js) : Option (List TilePos)) = some ts := by
          rw [← h]
          show _ = (if isBoardSolvable stateB
            (simulateRemovalAndGravity b layout (selectRandomSubset tiles k js)) = true then
              some (selectRandomSubset tiles k js)
            else bombAttempts stateB b layout k tiles n (js.drop (tiles.length - 1)))
          rw [if_pos hs]
        exact Option.some.inj h'
      rw [hts] at hs
      exact hs
    · apply ih (js.drop (tiles.length - 1)) ts
      rw [← h]
      show bombAttempts stateB b layout k tiles n (js.drop (tiles.length - 1)) =
        (if isBoardSolvable stateB
          (simulateRemovalAndGravity b layout (selectRandomSubset tiles k js)) = true then
            some (selectRandomSubset tiles k js)
          else bombAttempts stateB b layout k tiles n (js.drop (tiles.length - 1)))
      rw [if_neg hs]

theorem bombAttempts_none (stateB b : Board) (layout : LayoutMode) (k : Nat)
    (tiles : List TilePos) :
    ∀ (n : Nat) (js : List Nat),
      bombAttempts stateB b layout k tiles n js = none →
      ∀ cand ∈ bombCandidates k tiles js n,
        isBoardSolvable stateB (simulateRemovalAndGravity b layout cand) = false := by
  intro n
  induction n with
  | zero => intro js _ cand hc; cases hc
  | succ n ih =>
    intro js h cand hc
    by_cases hs : isBoardSolvable stateB
        (simulateRemovalAndGravity b layout (selectRandomSubset tiles k js)) = true
    · exfalso
      have h' : (some (selectRandomSubset tiles k js) : Option (List TilePos)) = none := by
        rw [← h]
        show _ = (if isBoardSolvable stateB
          (simulateRemovalAndGravity b layout (selectRandomSubset tiles k js)) = true then
            some (selectRandomSubset tiles k js)
          else bombAttempts stateB b layout k tiles n (js.drop (tiles.length - 1)))
        rw [if_pos hs]
      cases h'
    · have hrest : bombAttempts stateB b layout k tiles n (js.drop (tiles.length - 1)) = none := by
        rw [← h]
        show bombAttempts stateB b layout k tiles n (js.drop (tiles.length - 1)) =
          (if isBoardSolvable stateB
            (simulateRemovalAndGravity b layout (selectRandomSubset tiles k js)) = true then
              some (selectRandomSubset tiles k js)
            else bombAttempts stateB b layout k tiles n (js.drop (tiles.length - 1)))
        rw [if_neg hs]
      rcases List.mem_cons.mp hc with rfl | hc'
      · exact Bool.eq_false_iff.mpr hs
      · exact ih _ hrest cand hc'

/-- **C2.**  Whenever `selectBombTargetsEnsuringSolvable` returns a
non-null target list, removing exactly those cells and applying the level's
gravity mode yields a board `isBoardSolvable` reports solvable, or a fully
empty board; and it returns null only after all `maxAttempts` sampled
subsets failed that test — it never returns a subset whose simulated
post-removal, post-gravity board is unsolvable and non-empty. -/
theorem selectBombTargets_spec (stateB b : Board) (layout : LayoutMode)
    (k maxAttempts : Nat) (js : List Nat) (hwf : WFBoard b) :
    (∀ ts, selectBombTargetsEnsuringSolvable stateB b layout k maxAttempts js = some ts →
      isBoardSolvable stateB (simulateRemovalAndGravity b layout ts) = true ∨
        boardAllEmpty (simulateRemovalAndGravity b layout ts) = true) ∧
    (selectBombTargetsEnsuringSolvable stateB b layout k maxAttempts js = none →
      (bombCandidates k (collectTiles b) js maxAttempts).length = maxAttempts ∧
      ∀ cand ∈ bombCandidates k (collectTiles b) js maxAttempts,
        isBoardSolvable stateB (simulateRemovalAndGravity b layout cand) = false) := by
  by_cases hemp : (collectTiles b).isEmpty = true
  · have hsel : selectBombTargetsEnsuringSolvable stateB b layout k maxAttempts js = some [] := by
      show (if (collectTiles b).isEmpty = true then some [] else _) = some []
      rw [if_pos hemp]
    constructor
    · intro ts hts
      rw [hsel] at hts
      cases Option.some.inj hts
      right
      rw [← flattenTiles_eq_nil_iff]
      apply flattenTiles_gravity_nil
      exact collectTiles_nil_flatten hwf (List.isEmpty_iff.mp hemp)
    · intro hnone
      rw [hsel] at hnone
      cases hnone
  · have hsel : selectBombTargetsEnsuringSolvable stateB b layout k maxAttempts js =
        bombAttempts stateB b layout k (collectTiles b) maxAttempts js := by
      show (if (collectTiles b).isEmpty = true then some [] else _) = _
      rw [if_neg hemp]
    rw [hsel]
    constructor
    · intro ts hts
      exact Or.inl (bombAttempts_some stateB b layout k (collectTiles b) maxAttempts js ts hts)
    · intro hnone
      exact ⟨bombCandidates_length k (collectTiles b) maxAttempts js,
        bombAttempts_none stateB b layout k (collectTiles b) maxAttempts js hnone⟩

/-- Witness for C2: on the 1×2 board `[a, a]`, with `k = 0` the first
sampled subset is empty and the simulated board stays solvable. -/
theorem selectBombTargets_spec_witness :
    WFBoard [[some 0, some 0]] ∧
    (isBoardSolvable [[some 0, some 0]]
        (simulateRemovalAndGravity [[some 0, some 0]] .Static []) = true ∨
      boardAllEmpty (simulateRemovalAndGravity [[some 0, some 0]] .Static []) = true) :=
  ⟨by unfold WFBoard; decide,
    (selectBombTargets_spec [[some 0, some 0]] [[some 0, some 0]] .Static 0 1 []
      (by unfold WFBoard; decide)).1 [] (by decide)⟩

/-! ## C5: evenness of the tile count — counting lemmas -/

/-- The board position of a collected tile. -/
def posOf (t : TilePos) : Nat × Nat := (t.row, t.col)

theorem countTiles_eq_sum (b : Board) :
    countTiles b = ∑ r ∈ Finset.range b.length, ((b.getD r []).filterMap id).length := by
  induction b with
  | nil => rfl
  | cons row rest ih =>
    show (flattenTiles (row :: rest)).length = _
    rw [show flattenTiles (row :: rest) = row.filterMap id ++ flattenTiles rest by
      simp [flattenTiles]]
    rw [List.length_append,
      show (row :: rest).length = rest.length + 1 from rfl, Finset.sum_range_succ']
    have hsucc : ∀ k ∈ Finset.range rest.length,
        (((row :: rest).getD (k + 1) []).filterMap id).length =
          ((rest.getD k []).filterMap id).length := fun k _ => rfl
    rw [Finset.sum_congr rfl hsucc,
      show (((row :: rest).getD 0 []).filterMap id).length = (row.filterMap id).length from rfl]
    have ih' : (flattenTiles rest).length =
        ∑ r ∈ Finset.range rest.length, ((rest.getD r []).filterMap id).length := ih
    omega

theorem one_le_filterMap_of_isSome {row : List Cell} {c : Nat}
    (h : (row.getD c none).isSome = true) : 1 ≤ (row.filterMap id).length := by
  induction row generalizing c with
  | nil => simp at h
  | cons x t ih =>
    cases c with
    | zero =>
      obtain ⟨v, rfl⟩ := Option.isSome_iff_exists.mp h
      show 1 ≤ ((some v :: t).filterMap id).length
      rw [show (some v :: t).filterMap id = v :: t.filterMap id from rfl, List.length_cons]
      omega
    | succ c =>
      have h' : (t.getD c none).isSome = true := h
      cases x with
      | none =>
        show 1 ≤ ((none :: t).filterMap id).length
        rw [show (none :: t).filterMap id = t.filterMap id from rfl]
        exact ih h'
      | some v =>
        show 1 ≤ ((some v :: t).filterMap id).length
        rw [show (some v :: t).filterMap id = v :: t.filterMap id from rfl, List.length_cons]
        omega

theorem filterMap_id_set_none_length {row : List Cell} {c : Nat}
    (h : (row.getD c none).isSome = true) :
    ((row.set c none).filterMap id).length = (row.filterMap id).length - 1 := by
  induction row generalizing c with
  | nil => simp at h
  | cons x t ih =>
    cases c with
    | zero =>
      obtain ⟨v, rfl⟩ := Option.isSome_iff_exists.mp h
      show ((none :: t).filterMap id).length = ((some v :: t).filterMap id).length - 1
      rw [show (none :: t).filterMap id = t.filterMap id from rfl,
        show (some v :: t).filterMap id = v :: t.filterMap id from rfl, List.length_cons]
      omega
    | succ c =>
      have h' : (t.getD c none).isSome = true := h
      have hih := ih h'
      cases x with
      | none =>
        show ((none :: t.set c none).filterMap id).length =
          ((none :: t).filterMap id).length - 1
        rw [show (none :: t.set c none).filterMap id = (t.set c none).filterMap id from rfl,
          show (none :: t).filterMap id = t.filterMap id from rfl]
        exact hih
      | some v =>
        have h1 := one_le_filterMap_of_isSome h'
        show ((some v :: t.set c none).filterMap id).length =
          ((some v :: t).filterMap id).length - 1
        rw [show (some v :: t.set c none).filterMap id = v :: (t.set c none).filterMap id
            from rfl,
          show (some v :: t).filterMap id = v :: t.filterMap id from rfl,
          List.length_cons, List.length_cons, hih]
        omega

theorem getD_setCell_self {b : Board} {r : Nat} (c : Nat) (v : Cell) (hr : r < b.length) :
    (setCell b r c v).getD r [] = (b.getD r []).set c v := by
  unfold setCell
  rw [List.getD_eq_get?, List.get?_set_eq, List.get?_eq_getElem?,
    List.getElem?_eq_getElem hr]
  rfl

theorem getD_setCell_other {b : Board} {r c : Nat} (v : Cell) {r' : Nat} (hne : r ≠ r') :
    (setCell b r c v).getD r' [] = b.getD r' [] := by
  unfold setCell
  rw [List.getD_eq_get?, List.get?_set_ne _ _ hne, ← List.getD_eq_get?]

theorem countTiles_setCell_none {b : Board} {r c : Nat}
    (h : ((b.getD r []).getD c none).isSome = true) :
    countTiles (setCell b r c none) = countTiles b - 1 := by
  have hr : r < b.length := by
    by_contra hge
    push_neg at hge
    rw [List.getD_eq_get? b r [], List.get?_eq_none.mpr hge] at h
    simp at h
  rw [countTiles_eq_sum, countTiles_eq_sum,
    show (setCell b r c none).length = b.length from by simp [setCell]]
  have hrmem : r ∈ Finset.range b.length := Finset.mem_range.mpr hr
  rw [← Finset.sum_erase_add _ _ hrmem, ← Finset.sum_erase_add _ _ hrmem]
  have hsame : ∑ x ∈ (Finset.range b.length).erase r,
      (((setCell b r c none).getD x []).filterMap id).length =
      ∑ x ∈ (Finset.range b.length).erase r, ((b.getD x []).filterMap id).length := by
    apply Finset.sum_congr rfl
    intro x hx
    rw [getD_setCell_other none (Ne.symm (Finset.ne_of_mem_erase hx))]
  rw [hsame, getD_setCell_self c none hr, filterMap_id_set_none_length h]
  have hpos := one_le_filterMap_of_isSome h
  omega

theorem cell_setCell_ne {b : Board} {r c r' c' : Nat} (hne : r ≠ r' ∨ c ≠ c') :
    ((setCell b r c none).getD r' []).getD c' none = (b.getD r' []).getD c' none := by
  rcases hne with hr | hc
  · rw [getD_setCell_other none hr]
  · by_cases hr : r = r'
    · subst hr
      by_cases hrlen : r < b.length
      · rw [getD_setCell_self c none hrlen, List.getD_eq_get?, List.get?_set_ne _ _ hc,
          ← List.getD_eq_get?]
      · push_neg at hrlen
        have h1 : (setCell b r c none).getD r [] = b.getD r [] := by
          unfold setCell
          rw [List.set_eq_of_length_le hrlen]
        rw [h1]
    · rw [getD_setCell_other none hr]

theorem countTiles_clearCells : ∀ (ps : List (Nat × Nat)) (b : Board), ps.Nodup →
    (∀ p ∈ ps, ((b.getD p.1 []).getD p.2 none).isSome = true) →
    countTiles (clearCells b ps) = countTiles b - ps.length := by
  intro ps
  induction ps with
  | nil =>
    intro b _ _
    show countTiles b = countTiles b - 0
    rw [Nat.sub_zero]
  | cons p rest ih =>
    intro b hnodup hne
    show countTiles (clearCells (setCell b p.1 p.2 none) rest) =
      countTiles b - (p :: rest).length
    have hp := hne p (List.mem_cons_self p rest)
    have hrest : ∀ q ∈ rest,
        (((setCell b p.1 p.2 none).getD q.1 []).getD q.2 none).isSome = true := by
      intro q hq
      have hqb := hne q (List.mem_cons_of_mem p hq)
      have hpq : p ≠ q := fun hh => (List.nodup_cons.mp hnodup).1 (hh ▸ hq)
      have hcomp : p.1 ≠ q.1 ∨ p.2 ≠ q.2 := by
        by_cases h1 : p.1 = q.1
        · right
          intro h2
          exact hpq (Prod.ext h1 h2)
        · exact Or.inl h1
      rw [cell_setCell_ne hcomp]
      exact hqb
    rw [ih (setCell b p.1 p.2 none) (List.nodup_cons.mp hnodup).2 hrest,
      countTiles_setCell_none hp, List.length_cons]
    omega

theorem clearTargets_eq_clearCells (b : Board) (ts : List TilePos) :
    clearTargets b ts = clearCells b (ts.map posOf) := by
  unfold clearTargets clearCells
  rw [List.foldl_map]
  rfl

/-! ### Distinctness and length of the collected tile list -/

theorem mem_chunk_fst {b : Board} {r : Nat} {p : Nat × Nat}
    (hp : p ∈ List.map posOf ((List.range (colsOf b)).filterMap
      (fun c => ((b.getD r []).getD c none).map (fun t => (⟨r, c, t⟩ : TilePos))))) :
    p.1 = r := by
  rw [List.mem_map] at hp
  obtain ⟨t, ht, rfl⟩ := hp
  rw [List.mem_filterMap] at ht
  obtain ⟨c, _, hc⟩ := ht
  obtain ⟨v, _, rfl⟩ := Option.map_eq_some'.mp hc
  rfl

theorem collectTiles_pos_nodup (b : Board) : ((collectTiles b).map posOf).Nodup := by
  unfold collectTiles
  rw [List.map_flatMap, List.nodup_flatMap]
  constructor
  · intro r _
    rw [List.map_filterMap]
    apply List.Nodup.filterMap ?_ (List.nodup_range (colsOf b))
    intro c c' p hp hp'
    rw [Option.mem_def] at hp hp'
    rw [Option.map_map] at hp hp'
    obtain ⟨v, _, hpv⟩ := Option.map_eq_some'.mp hp
    obtain ⟨v', _, hpv'⟩ := Option.map_eq_some'.mp hp'
    have h1 : ((r, c) : Nat × Nat) = p := hpv
    have h2 : ((r, c') : Nat × Nat) = p := hpv'
    exact (Prod.ext_iff.mp (h1.trans h2.symm)).2
  · apply List.Pairwise.imp ?_ (List.pairwise_lt_range (rowsOf b))
    intro a a' hlt
    show List.Disjoint _ _
    intro p hp hp'
    have h1 := mem_chunk_fst hp
    have h2 := mem_chunk_fst hp'
    omega

theorem getD_mem_of_lt {b : Board} {r : Nat} (hr : r < b.length) : b.getD r [] ∈ b := by
  rw [List.getD_eq_get?, List.get?_eq_getElem?, List.getElem?_eq_getElem hr, Option.getD_some]
  exact List.getElem_mem hr

theorem filterMap_length_eq (F : α → Option β) (G : α → Option γ) (l : List α)
    (h : ∀ a ∈ l, (F a).isSome = (G a).isSome) :
    (l.filterMap F).length = (l.filterMap G).length := by
  induction l with
  | nil => rfl
  | cons a t ih =>
    have ha := h a (List.mem_cons_self a t)
    have ht := fun x hx => h x (List.mem_cons_of_mem a hx)
    rw [List.filterMap_cons, List.filterMap_cons]
    cases hF : F a with
    | none =>
      rw [hF] at ha
      cases hG : G a with
      | none => exact ih ht
      | some g => rw [hG] at ha; simp at ha
    | some f =>
      rw [hF] at ha
      cases hG : G a with
      | none => rw [hG] at ha; simp at ha
      | some g =>
        rw [List.length_cons, List.length_cons, ih ht]

theorem list_range_map_sum (g : Nat → Nat) (n : Nat) :
    ((List.range n).map g).sum = ∑ i ∈ Finset.range n, g i := by
  induction n with
  | zero => rfl
  | succ n ih =>
    rw [List.range_succ, List.map_append, List.sum_append, ih, Finset.sum_range_succ]
    simp

theorem collectTiles_length {b : Board} (hwf : WFBoard b) :
    (collectTiles b).length = countTiles b := by
  rw [countTiles_eq_sum]
  unfold collectTiles
  rw [List.length_flatMap, list_range_map_sum]
  refine Finset.sum_congr rfl ?_
  intro r hr
  have hrow : (b.getD r []).length = colsOf b :=
    hwf _ (getD_mem_of_lt (Finset.mem_range.mp hr))
  show ((List.range (colsOf b)).filterMap (fun c =>
      ((b.getD r []).getD c none).map (fun t => (⟨r, c, t⟩ : TilePos)))).length =
    ((b.getD r []).filterMap id).length
  rw [filterMap_length_eq _ (fun c => (b.getD r []).getD c none) _
    (fun c _ => by show _ = ((b.getD r []).getD c none).isSome; cases h : (b.getD r []).getD c none <;> simp [h])]
  show (rowTilesUpTo (colsOf b) (b.getD r [])).length = _
  rw [rowTilesUpTo_eq_take, ← hrow, List.take_length]

theorem countTiles_le {b : Board} (hwf : WFBoard b) :
    countTiles b ≤ rowsOf b * colsOf b := by
  rw [countTiles_eq_sum]
  calc ∑ r ∈ Finset.range b.length, ((b.getD r []).filterMap id).length
      ≤ ∑ _r ∈ Finset.range b.length, colsOf b := by
        apply Finset.sum_le_sum
        intro r hr
        calc ((b.getD r []).filterMap id).length ≤ (b.getD r []).length :=
              List.length_filterMap_le _ _
        _ = colsOf b := hwf _ (getD_mem_of_lt (Finset.mem_range.mp hr))
  _ = b.length * colsOf b := by rw [Finset.sum_const, Finset.card_range, smul_eq_mul]
  _ = rowsOf b * colsOf b := rfl

/-! ### Well-formedness is preserved by every board operation -/

theorem colsOf_setCell (b : Board) (r c : Nat) (v : Cell) :
    colsOf (setCell b r c v) = colsOf b := by
  unfold setCell colsOf
  cases b with
  | nil => rfl
  | cons row rest =>
    cases r with
    | zero => simp [List.length_set]
    | succ r => rfl

theorem WF_setCell {b : Board} (hwf : WFBoard b) (r c : Nat) (v : Cell) :
    WFBoard (setCell b r c v) := by
  intro row hrow
  rw [colsOf_setCell]
  unfold setCell at hrow
  obtain ⟨i, hi, hval⟩ := List.mem_iff_getElem.mp hrow
  have hib : i < b.length := List.length_set b r ((b.getD r []).set c v) ▸ hi
  by_cases hir : i = r
  · subst hir
    rw [List.getElem_set_eq hi] at hval
    rw [← hval, List.length_set]
    exact hwf _ (getD_mem_of_lt hib)
  · rw [List.getElem_set_ne (fun hh => hir hh.symm)] at hval
    rw [← hval]
    exact hwf _ (List.getElem_mem hib)

theorem WF_clearCells {b : Board} (hwf : WFBoard b) (ps : List (Nat × Nat)) :
    WFBoard (clearCells b ps) := by
  induction ps generalizing b with
  | nil => exact hwf
  | cons p rest ih =>
    show WFBoard (clearCells (setCell b p.1 p.2 none) rest)
    exact ih (WF_setCell hwf p.1 p.2 none)

theorem colsOf_map_rowFn (f : Nat → List Cell → List Cell)
    (hlen : ∀ cols row, (f cols row).length = cols + (row.length - cols)) (b : Board) :
    colsOf (b.map (f (colsOf b))) = colsOf b := by
  cases b with
  | nil => rfl
  | cons r0 rest =>
    show (f (colsOf (r0 :: rest)) r0).length = colsOf (r0 :: rest)
    rw [hlen]
    have : colsOf (r0 :: rest) = r0.length := rfl
    omega

theorem WF_map_rowFn (f : Nat → List Cell → List Cell)
    (hlen : ∀ cols row, (f cols row).length = cols + (row.length - cols))
    {b : Board} (hwf : WFBoard b) : WFBoard (b.map (f (colsOf b))) := by
  intro row hrow
  rw [colsOf_map_rowFn f hlen]
  rw [List.mem_map] at hrow
  obtain ⟨row0, hrow0, rfl⟩ := hrow
  rw [hlen]
  have := hwf row0 hrow0
  omega

theorem WF_applyGravityEffect {b : Board} (hwf : WFBoard b) (m : LayoutMode) :
    WFBoard (applyGravityEffect b m) := by
  cases m with
  | Static => exact hwf
  | Left => exact WF_map_rowFn leftRow leftRow_length hwf
  | Right => exact WF_map_rowFn rightRow rightRow_length hwf
  | Split => exact WF_map_rowFn splitRow splitRow_length hwf
  | Up =>
    intro row hrow
    rw [colsOf_applyUp]
    rw [show applyGravityEffect b .Up =
      (List.range (rowsOf b)).map (fun r => upRow b r) from rfl, List.mem_map] at hrow
    obtain ⟨r, hr, rfl⟩ := hrow
    rw [upRow_length]
    have := hwf _ (getD_mem_of_lt (List.mem_range.mp hr))
    omega
  | Down =>
    intro row hrow
    rw [colsOf_applyDown]
    rw [show applyGravityEffect b .Down =
      (List.range (rowsOf b)).map (fun r => downRow b r) from rfl, List.mem_map] at hrow
    obtain ⟨r, hr, rfl⟩ := hrow
    rw [downRow_length]
    have := hwf _ (getD_mem_of_lt (List.mem_range.mp hr))
    omega

theorem colsOf_refill (b : Board) (ts : List Tile) :
    colsOf (refillBoard b ts) = colsOf b := by
  cases b with
  | nil => rfl
  | cons r0 rest =>
    show colsOf ((List.range (rowsOf (r0 :: rest))).map _) = colsOf (r0 :: rest)
    rw [show rowsOf (r0 :: rest) = rest.length + 1 from rfl, List.range_succ_eq_map,
      List.map_cons]
    show ((List.range (colsOf (r0 :: rest))).map _ ++
      List.replicate (((r0 :: rest).getD 0 []).length - colsOf (r0 :: rest)) none).length =
      colsOf (r0 :: rest)
    rw [List.length_append, List.length_map, List.length_range, List.length_replicate]
    have h1 : ((r0 :: rest).getD 0 []).length = r0.length := rfl
    have h2 : colsOf (r0 :: rest) = r0.length := rfl
    omega

theorem WF_refill {b : Board} (hwf : WFBoard b) (ts : List Tile) :
    WFBoard (refillBoard b ts) := by
  intro row hrow
  rw [colsOf_refill]
  unfold refillBoard at hrow
  rw [List.mem_map] at hrow
  obtain ⟨r, hr, rfl⟩ := hrow
  rw [List.length_append, List.length_map, List.length_range, List.length_replicate]
  have := hwf _ (getD_mem_of_lt (List.mem_range.mp hr))
  omega

/-! ### Tile-count preservation by gravity, refill and the shuffle loop -/

theorem countTiles_applyGravityEffect (b : Board) (m : LayoutMode) :
    countTiles (applyGravityEffect b m) = countTiles b := by
  have h := congrArg Multiset.card (flattenTiles_gravity_multiset b m)
  rw [Multiset.coe_card, Multiset.coe_card] at h
  exact h

theorem flattenTiles_refill (b : Board) (ts : List Tile) :
    flattenTiles (refillBoard b ts) = ts.take (rowsOf b * colsOf b) := by
  unfold refillBoard
  exact flattenTiles_grid ts (colsOf b)
    (fun r => List.replicate ((b.getD r []).length - colsOf b) none)
    (fun r => by
      rw [List.filterMap_eq_nil_iff]
      intro a ha
      rw [List.eq_of_mem_replicate ha]
      rfl)
    (rowsOf b)

theorem countTiles_refill {b : Board} (hwf : WFBoard b) {ts : List Tile}
    (hlen : ts.length ≤ rowsOf b * colsOf b) :
    countTiles (refillBoard b ts) = ts.length := by
  show (flattenTiles (refillBoard b ts)).length = _
  rw [flattenTiles_refill, List.length_take]
  omega

theorem shuffleLoop_succ (stateB : Board) (layout : LayoutMode) (b : Board)
    (fl : List Tile) (js : List Nat) (n : Nat) :
    shuffleLoop stateB layout b fl js (n + 1) =
      if isBoardSolvable stateB
          (applyGravityEffect (refillBoard b (fisherYates fl js)) layout) = true
      then applyGravityEffect (refillBoard b (fisherYates fl js)) layout
      else shuffleLoop stateB layout b (fisherYates fl js) (js.drop (fl.length - 1)) n :=
  rfl

theorem shuffleLoop_preserves (stateB : Board) (layout : LayoutMode) {fb : Board}
    (hwf : WFBoard fb) :
    ∀ (n : Nat) (fl : List Tile) (js : List Nat), fl.length = countTiles fb →
      countTiles (shuffleLoop stateB layout fb fl js n) = countTiles fb ∧
        WFBoard (shuffleLoop stateB layout fb fl js n) := by
  intro n
  induction n with
  | zero => intro fl js _; exact ⟨rfl, hwf⟩
  | succ n ih =>
    intro fl js hlen
    have hattempt : countTiles (applyGravityEffect (refillBoard fb (fisherYates fl js))
        layout) = countTiles fb := by
      rw [countTiles_applyGravityEffect, countTiles_refill hwf
        (by rw [fisherYates_length, hlen]; exact countTiles_le hwf),
        fisherYates_length, hlen]
    have hattemptWF : WFBoard (applyGravityEffect (refillBoard fb (fisherYates fl js))
        layout) := WF_applyGravityEffect (WF_refill hwf _) layout
    rw [shuffleLoop_succ]
    by_cases hs : isBoardSolvable stateB
        (applyGravityEffect (refillBoard fb (fisherYates fl js)) layout) = true
    · rw [if_pos hs]
      exact ⟨hattempt, hattemptWF⟩
    · rw [if_neg hs]
      exact ih (fisherYates fl js) (js.drop (fl.length - 1))
        (by rw [fisherYates_length]; exact hlen)

/-! ### The evenness invariant (C5): per-operation preservation lemmas -/

theorem even_min {a b : Nat} (ha : Even a) (hb : Even b) : Even (min a b) := by
  rcases Nat.le_total a b with h | h
  · rwa [min_eq_left h]
  · rwa [min_eq_right h]

theorem getBombRemoveCount_even (levelSize : Nat) :
    Even (getBombRemoveCount levelSize) := by
  unfold getBombRemoveCount
  split_ifs <;> decide

theorem colsOf_mapRange (f : Nat → List Cell) (n : Nat) (hn : 0 < n) :
    colsOf ((List.range n).map f) = (f 0).length := by
  obtain ⟨m, rfl⟩ := Nat.exists_eq_succ_of_ne_zero (Nat.pos_iff_ne_zero.mp hn)
  rw [List.range_succ_eq_map, List.map_cons]
  rfl

theorem WF_generateGameBoard (js : List Nat) (size kinds : Nat) :
    WFBoard (generateGameBoard js size kinds) := by
  intro row hrow
  show row.length = colsOf (generateGameBoard js size kinds)
  rw [show generateGameBoard js size kinds =
    (List.range (getBoardDimensions size).1).map (fun r =>
      (List.range (getBoardDimensions size).2).map (fun c =>
        (fisherYates ((List.range (size / 2)).flatMap
          (fun i => [i % kinds, i % kinds])) js).get?
          (r * (getBoardDimensions size).2 + c))) from rfl] at hrow ⊢
  rw [List.mem_map] at hrow
  obtain ⟨r, hr, rfl⟩ := hrow
  rw [colsOf_mapRange _ _ (by have := List.mem_range.mp hr; omega)]
  rw [List.length_map, List.length_range, List.length_map, List.length_range]

theorem selectRandomSubset_posNodup (b : Board) (k : Nat) (js : List Nat) :
    ((selectRandomSubset (collectTiles b) k js).map posOf).Nodup := by
  show (((fisherYates (collectTiles b) js).take
    (min k (collectTiles b).length)).map posOf).Nodup
  rw [List.map_take]
  have hperm : ((fisherYates (collectTiles b) js).map posOf).Perm
      ((collectTiles b).map posOf) :=
    (fisherYates_perm (collectTiles b) js).map posOf
  exact List.Nodup.sublist (List.take_sublist _ _)
    (hperm.nodup_iff.mpr (collectTiles_pos_nodup b))

theorem selectRandomSubset_mem_isSome (b : Board) (k : Nat) (js : List Nat) :
    ∀ t ∈ selectRandomSubset (collectTiles b) k js,
      ((b.getD t.row []).getD t.col none).isSome = true := by
  intro t ht
  have ht' : t ∈ (fisherYates (collectTiles b) js).take
      (min k (collectTiles b).length) := ht
  have h1 : t ∈ fisherYates (collectTiles b) js := List.mem_of_mem_take ht'
  have h2 : t ∈ collectTiles b := ((fisherYates_perm (collectTiles b) js).mem_iff).mp h1
  rw [(mem_collectTiles_iff.mp h2).2.2]
  rfl

theorem selectRandomSubset_tiles_length (b : Board) (k : Nat) (js : List Nat) :
    (selectRandomSubset (collectTiles b) k js).length = min k (collectTiles b).length := by
  show ((fisherYates (collectTiles b) js).take
    (min k (collectTiles b).length)).length = _
  rw [List.length_take, fisherYates_length]
  omega

theorem WF_clearTargets {b : Board} (hwf : WFBoard b) (ts : List TilePos) :
    WFBoard (clearTargets b ts) := by
  rw [clearTargets_eq_clearCells]
  exact WF_clearCells hwf _

theorem countTiles_bombTargets (b : Board) (ts : List TilePos)
    (hnodup : (ts.map posOf).Nodup)
    (hsome : ∀ t ∈ ts, ((b.getD t.row []).getD t.col none).isSome = true) :
    countTiles (clearTargets b ts) = countTiles b - ts.length := by
  rw [clearTargets_eq_clearCells]
  have hsome' : ∀ p ∈ ts.map posOf, ((b.getD p.1 []).getD p.2 none).isSome = true := by
    intro p hp
    rw [List.mem_map] at hp
    obtain ⟨t, ht, rfl⟩ := hp
    exact hsome t ht
  rw [countTiles_clearCells (ts.map posOf) b hnodup hsome', List.length_map]

theorem bombAttempts_shape (stateB b : Board) (layout : LayoutMode) (k : Nat)
    (tiles : List TilePos) :
    ∀ (n : Nat) (js : List Nat) (ts : List TilePos),
      bombAttempts stateB b layout k tiles n js = some ts →
      ∃ js', ts = selectRandomSubset tiles k js' := by
  intro n
  induction n with
  | zero => intro js ts h; exact Option.noConfusion h
  | succ n ih =>
    intro js ts h
    have h' : (if isBoardSolvable stateB (simulateRemovalAndGravity b layout
          (selectRandomSubset tiles k js)) = true
        then some (selectRandomSubset tiles k js)
        else bombAttempts stateB b layout k tiles n (js.drop (tiles.length - 1))) =
        some ts := h
    by_cases hs : isBoardSolvable stateB (simulateRemovalAndGravity b layout
        (selectRandomSubset tiles k js)) = true
    · rw [if_pos hs] at h'
      exact ⟨js, (Option.some.inj h').symm⟩
    · rw [if_neg hs] at h'
      exact ih (js.drop (tiles.length - 1)) ts h'

theorem bombTargets_cases (stateB b : Board) (layout : LayoutMode) (k : Nat)
    (js1 js2 : List Nat) :
    (match selectBombTargetsEnsuringSolvable stateB b layout k 120 js1 with
      | some ts => ts
      | none => selectRandomTilesToRemove b k js2) = [] ∨
    ∃ js', (match selectBombTargetsEnsuringSolvable stateB b layout k 120 js1 with
      | some ts => ts
      | none => selectRandomTilesToRemove b k js2) =
        selectRandomSubset (collectTiles b) k js' := by
  cases hsel : selectBombTargetsEnsuringSolvable stateB b layout k 120 js1 with
  | none => exact Or.inr ⟨js2, rfl⟩
  | some ts =>
    have hsel' : (if (collectTiles b).isEmpty = true then some ([] : List TilePos)
        else bombAttempts stateB b layout k (collectTiles b) 120 js1) = some ts := hsel
    by_cases he : (collectTiles b).isEmpty = true
    · rw [if_pos he] at hsel'
      exact Or.inl (Option.some.inj hsel').symm
    · rw [if_neg he] at hsel'
      exact Or.inr (bombAttempts_shape stateB b layout k (collectTiles b) 120 js1 ts hsel')

theorem executeBomb_preserves (stateB : Board) (layout : LayoutMode) {b : Board}
    (hwf : WFBoard b) (heven : Even (countTiles b)) (ts : List TilePos)
    (hnodup : (ts.map posOf).Nodup)
    (hsome : ∀ t ∈ ts, ((b.getD t.row []).getD t.col none).isSome = true)
    (hlen : Even ts.length) (js : List Nat) :
    WFBoard (executeBombDestruction stateB layout b ts js) ∧
      Even (countTiles (executeBombDestruction stateB layout b ts js)) := by
  have hfbWF : WFBoard (applyGravityEffect (clearTargets b ts) layout) :=
    WF_applyGravityEffect (WF_clearTargets hwf ts) layout
  have hfbEven : Even (countTiles (applyGravityEffect (clearTargets b ts) layout)) := by
    rw [countTiles_applyGravityEffect, countTiles_bombTargets b ts hnodup hsome]
    exact heven.tsub hlen
  rw [show executeBombDestruction stateB layout b ts js =
    (if isDeadlocked (applyGravityEffect (clearTargets b ts) layout) = true
     then shuffleUntilSolvable stateB layout
       (applyGravityEffect (clearTargets b ts) layout) js 25
     else applyGravityEffect (clearTargets b ts) layout) from rfl]
  by_cases hd : isDeadlocked (applyGravityEffect (clearTargets b ts) layout) = true
  · rw [if_pos hd]
    have hsl := shuffleLoop_preserves stateB layout hfbWF 25
      (flattenTiles (applyGravityEffect (clearTargets b ts) layout)) js rfl
    refine ⟨hsl.2, ?_⟩
    show Even (countTiles (shuffleLoop stateB layout
      (applyGravityEffect (clearTargets b ts) layout)
      (flattenTiles (applyGravityEffect (clearTargets b ts) layout)) js 25))
    rw [hsl.1]
    exact hfbEven
  · rw [if_neg hd]
    exact ⟨hfbWF, hfbEven⟩

theorem bombApply_preserves (stateB : Board) (layout : LayoutMode) {b : Board}
    (hwf : WFBoard b) (heven : Even (countTiles b)) (ts : List TilePos)
    (hcases : ts = [] ∨ ∃ k js', Even k ∧ ts = selectRandomSubset (collectTiles b) k js')
    (js3 : List Nat) :
    WFBoard (if ts.isEmpty then b else executeBombDestruction stateB layout b ts js3) ∧
      Even (countTiles (if ts.isEmpty then b
        else executeBombDestruction stateB layout b ts js3)) := by
  by_cases hemp : ts.isEmpty = true
  · rw [if_pos hemp]
    exact ⟨hwf, heven⟩
  · rw [if_neg hemp]
    rcases hcases with rfl | ⟨k, js', hk, rfl⟩
    · exact absurd rfl hemp
    · refine executeBomb_preserves stateB layout hwf heven _
        (selectRandomSubset_posNodup b k js')
        (selectRandomSubset_mem_isSome b k js') ?_ js3
      rw [selectRandomSubset_tiles_length, collectTiles_length hwf]
      exact even_min hk heven

theorem bombTool_preserves (stateB : Board) (layout : LayoutMode) {b : Board}
    (hwf : WFBoard b) (heven : Even (countTiles b)) (levelSize : Nat)
    (js1 js2 js3 : List Nat) :
    WFBoard (bombToolBoard stateB layout b levelSize js1 js2 js3) ∧
      Even (countTiles (bombToolBoard stateB layout b levelSize js1 js2 js3)) := by
  have hcases := bombTargets_cases stateB b layout (getBombRemoveCount levelSize) js1 js2
  have heq : bombToolBoard stateB layout b levelSize js1 js2 js3 =
      (if (match selectBombTargetsEnsuringSolvable stateB b layout
            (getBombRemoveCount levelSize) 120 js1 with
          | some ts => ts
          | none => selectRandomTilesToRemove b (getBombRemoveCount levelSize) js2).isEmpty
        then b
        else executeBombDestruction stateB layout b
          (match selectBombTargetsEnsuringSolvable stateB b layout
            (getBombRemoveCount levelSize) 120 js1 with
          | some ts => ts
          | none => selectRandomTilesToRemove b (getBombRemoveCount levelSize) js2)
          js3) := rfl
  rw [heq]
  refine bombApply_preserves stateB layout hwf heven _ ?_ js3
  rcases hcases with h | ⟨js', h⟩
  · exact Or.inl h
  · exact Or.inr ⟨getBombRemoveCount levelSize, js',
      getBombRemoveCount_even levelSize, h⟩

theorem matchPair_preserves (layout : LayoutMode) {b : Board} (hwf : WFBoard b)
    (heven : Even (countTiles b)) (p1 p2 : Nat × Nat) (hne : p1 ≠ p2)
    (h1 : ((b.getD p1.1 []).getD p1.2 none).isSome = true)
    (h2 : ((b.getD p2.1 []).getD p2.2 none).isSome = true) :
    WFBoard (removeMatchedPair layout b p1 p2) ∧
      Even (countTiles (removeMatchedPair layout b p1 p2)) := by
  unfold removeMatchedPair
  refine ⟨WF_applyGravityEffect (WF_clearCells hwf _) layout, ?_⟩
  have hmem : ∀ p ∈ [p1, p2], ((b.getD p.1 []).getD p.2 none).isSome = true := by
    intro p hp
    rw [List.mem_cons, List.mem_singleton] at hp
    rcases hp with rfl | rfl
    · exact h1
    · exact h2
  rw [countTiles_applyGravityEffect,
    countTiles_clearCells [p1, p2] b (by simp [hne]) hmem]
  exact heven.tsub ⟨1, rfl⟩

theorem shuffleTool_preserves (layout : LayoutMode) {b : Board} (hwf : WFBoard b)
    (heven : Even (countTiles b)) (js : List Nat) :
    WFBoard (shuffleToolBoard layout b js) ∧
      Even (countTiles (shuffleToolBoard layout b js)) := by
  unfold shuffleToolBoard
  refine ⟨WF_applyGravityEffect (WF_refill hwf _) layout, ?_⟩
  rw [countTiles_applyGravityEffect, countTiles_refill hwf
    (by rw [fisherYates_length]; exact countTiles_le hwf), fisherYates_length]
  exact heven

/-- One board-changing move of the game loop on top of the level's gravity
mode: clearing a matched pair of distinct non-empty cells
(`handleSuccessfulMatch`), the bomb tool (`handleUseTool` with
`selectBombTargetsEnsuringSolvable`, its `selectRandomTilesToRemove`
fallback and `executeBombDestruction`), or the shuffle tool. -/
inductive GameStep (stateB : Board) (layout : LayoutMode) : Board → Board → Prop
  | matchPair (b : Board) (p1 p2 : Nat × Nat) (hne : p1 ≠ p2)
      (h1 : ((b.getD p1.1 []).getD p1.2 none).isSome = true)
      (h2 : ((b.getD p2.1 []).getD p2.2 none).isSome = true) :
      GameStep stateB layout b (removeMatchedPair layout b p1 p2)
  | bomb (b : Board) (levelSize : Nat) (js1 js2 js3 : List Nat) :
      GameStep stateB layout b (bombToolBoard stateB layout b levelSize js1 js2 js3)
  | shuffleTool (b : Board) (js : List Nat) :
      GameStep stateB layout b (shuffleToolBoard layout b js)

theorem GameStep_preserves {stateB : Board} {layout : LayoutMode} {b b' : Board}
    (h : GameStep stateB layout b b') (hwf : WFBoard b)
    (heven : Even (countTiles b)) : WFBoard b' ∧ Even (countTiles b') := by
  cases h with
  | matchPair p1 p2 hne h1 h2 =>
    exact matchPair_preserves layout hwf heven p1 p2 hne h1 h2
  | bomb levelSize js1 js2 js3 =>
    exact bombTool_preserves stateB layout hwf heven levelSize js1 js2 js3
  | shuffleTool js => exact shuffleTool_preserves layout hwf heven js

/-- C5: board generation produces an even number of non-empty cells, and every
board-mutating operation — removing a matched pair plus gravity, the bomb tool
(which removes `min (getBombRemoveCount levelSize) count` tiles, an even
number, plus gravity and a possible count-preserving repair shuffle), and the
shuffle tool — preserves evenness of that count; hence every board reachable
from a generated board by game moves has an even number of non-empty cells. -/
theorem reachable_board_even_tiles (stateB : Board) (layout : LayoutMode)
    (js : List Nat) (size kinds : Nat) (hpos : 0 < size) (heven : Even size)
    (b : Board)
    (hreach : Relation.ReflTransGen (GameStep stateB layout)
      (generateGameBoard js size kinds) b) :
    Even (countTiles b) := by
  have h : WFBoard b ∧ Even (countTiles b) := by
    induction hreach with
    | refl =>
      refine ⟨WF_generateGameBoard js size kinds, ?_⟩
      rw [countTiles_generateGameBoard js size kinds heven hpos]
      exact heven
    | tail _ hstep ih => exact GameStep_preserves hstep ih.1 ih.2
  exact h.2

theorem reachable_board_even_tiles_witness :
    0 < 4 ∧ Even 4 ∧ Even (countTiles (generateGameBoard [] 4 3)) :=
  ⟨by decide, ⟨2, rfl⟩,
    reachable_board_even_tiles [] LayoutMode.Static [] 4 3 (by decide) ⟨2, rfl⟩
      (generateGameBoard [] 4 3) Relation.ReflTransGen.refl⟩

/-! ### C1 strengthening: the constructive fallback always satisfies the
oracle.  `findBestPositionsForPair` probes `findPath` on the same state board
the (buggy) oracle consults, so the first pair it places is always a
connectable same-kind pair of the final board. -/

theorem findPath_isSome_symm (b : Board) (r1 c1 r2 c2 : Int) :
    (findPath b r1 c1 r2 c2).isSome = (findPath b r2 c2 r1 c1).isSome := by
  unfold findPath
  rw [← findStraightPath_symm b r1 c1 r2 c2]
  cases hs : findStraightPath b r1 c1 r2 c2 with
  | some p => rfl
  | none =>
    have h1 := findOneCornerPath_isSome_symm b r1 c1 r2 c2
    cases h1a : findOneCornerPath b r1 c1 r2 c2 with
    | some p =>
      cases h1b : findOneCornerPath b r2 c2 r1 c1 with
      | some q => rfl
      | none => rw [h1a, h1b] at h1; simp at h1
    | none =>
      cases h1b : findOneCornerPath b r2 c2 r1 c1 with
      | some q => rw [h1a, h1b] at h1; simp at h1
      | none =>
        have h2 := findTwoCornerPath_isSome_symm b r1 c1 r2 c2
        cases h2a : findTwoCornerPath b r1 c1 r2 c2 with
        | some p =>
          cases h2b : findTwoCornerPath b r2 c2 r1 c1 with
          | some q => rfl
          | none => rw [h2a, h2b] at h2; simp at h2
        | none =>
          cases h2b : findTwoCornerPath b r2 c2 r1 c1 with
          | some q => rw [h2a, h2b] at h2; simp at h2
          | none => rfl

theorem betweenInts_adj (a : Int) : betweenInts a (a + 1) = [] := by
  unfold betweenInts
  rw [max_eq_right (by omega : a ≤ a + 1), min_eq_left (by omega : a ≤ a + 1)]
  have h : (a + 1 - a - 1).toNat = 0 := by omega
  rw [h]
  rfl

theorem findPath_adj_row (b : Board) (r c : Int) :
    (findPath b r c r (c + 1)).isSome = true := by
  have hs : findStraightPath b r c r (c + 1) = some [] := by
    unfold findStraightPath
    rw [if_pos rfl]
    show (if ((betweenInts c (c + 1)).map (fun x => (r, x))).all
        (fun p => isEmptyAt b p.1 p.2) = true
      then some ((betweenInts c (c + 1)).map (fun x => (r, x))) else none) = some []
    rw [betweenInts_adj]
    rfl
  unfold findPath
  rw [hs]
  rfl

theorem findPath_adj_col (b : Board) (r c : Int) :
    (findPath b r c (r + 1) c).isSome = true := by
  have hs : findStraightPath b r c (r + 1) c = some [] := by
    unfold findStraightPath
    rw [if_neg (by omega : ¬(r = r + 1)), if_pos rfl]
    show (if ((betweenInts r (r + 1)).map (fun x => (x, c))).all
        (fun p => isEmptyAt b p.1 p.2) = true
      then some ((betweenInts r (r + 1)).map (fun x => (x, c))) else none) = some []
    rw [betweenInts_adj]
    rfl
  unfold findPath
  rw [hs]
  rfl

theorem findPath_adj_row_nat (b : Board) (r c : Nat) :
    (findPath b (r : Int) (c : Int) (r : Int) ((c + 1 : Nat) : Int)).isSome = true := by
  have hcast : ((c + 1 : Nat) : Int) = (c : Int) + 1 := by push_cast; ring
  rw [hcast]
  exact findPath_adj_row b r c

theorem findPath_adj_col_nat (b : Board) (r c : Nat) :
    (findPath b (r : Int) (c : Int) ((r + 1 : Nat) : Int) (c : Int)).isSome = true := by
  have hcast : ((r + 1 : Nat) : Int) = (r : Int) + 1 := by push_cast; ring
  rw [hcast]
  exact findPath_adj_col b r c

theorem anyPairs_of_mem_symm {f : α → α → Bool} (hsymm : ∀ a b, f a b = f b a)
    {x y : α} (hne : x ≠ y) (hf : f x y = true) :
    ∀ {l : List α}, x ∈ l → y ∈ l → anyPairs l f = true := by
  intro l
  induction l with
  | nil => intro hx _; cases hx
  | cons a t ih =>
    intro hx hy
    show (t.any (f a) || anyPairs t f) = true
    rcases List.mem_cons.mp hx with rfl | hx'
    · have hy' : y ∈ t := by
        rcases List.mem_cons.mp hy with rfl | h
        · exact absurd rfl hne
        · exact h
      have ha : t.any (f x) = true := List.any_eq_true.mpr ⟨y, hy', hf⟩
      rw [ha, Bool.true_or]
    · rcases List.mem_cons.mp hy with rfl | hy'
      · have ha : t.any (f y) = true := by
          refine List.any_eq_true.mpr ⟨x, hx', ?_⟩
          rw [hsymm]
          exact hf
        rw [ha, Bool.true_or]
      · rw [ih hx' hy', Bool.or_true]

theorem isBoardSolvable_of_pair (stateB b : Board) {p q : Nat × Nat} {t : Tile}
    (hne : p ≠ q) (hp : p.1 < rowsOf b) (hpc : p.2 < colsOf b)
    (hq : q.1 < rowsOf b) (hqc : q.2 < colsOf b)
    (hcp : (b.getD p.1 []).getD p.2 none = some t)
    (hcq : (b.getD q.1 []).getD q.2 none = some t)
    (hconn : (findPath stateB p.1 p.2 q.1 q.2).isSome = true) :
    isBoardSolvable stateB b = true := by
  unfold isBoardSolvable
  have hmem1 : (⟨p.1, p.2, t⟩ : TilePos) ∈ collectTiles b :=
    mem_collectTiles_iff.mpr ⟨hp, hpc, hcp⟩
  have hmem2 : (⟨q.1, q.2, t⟩ : TilePos) ∈ collectTiles b :=
    mem_collectTiles_iff.mpr ⟨hq, hqc, hcq⟩
  refine anyPairs_of_mem_symm ?_ ?_ ?_ hmem1 hmem2
  · intro a b'
    show (decide (a.type = b'.type) && (findPath stateB a.row a.col b'.row b'.col).isSome) =
      (decide (b'.type = a.type) && (findPath stateB b'.row b'.col a.row a.col).isSome)
    rw [findPath_isSome_symm stateB a.row a.col b'.row b'.col,
      decide_eq_decide.mpr (Iff.intro Eq.symm Eq.symm)]
  · intro h
    exact hne (Prod.ext (congrArg TilePos.row h) (congrArg TilePos.col h))
  · show (decide (t = t) && (findPath stateB p.1 p.2 q.1 q.2).isSome) = true
    rw [decide_eq_true rfl, Bool.true_and]
    exact hconn

theorem mem_collectEmptyPositions_iff {b : Board} {rows cols : Nat} {p : Nat × Nat} :
    p ∈ collectEmptyPositions b rows cols ↔
      p.1 < rows ∧ p.2 < cols ∧ ((b.getD p.1 []).getD p.2 none).isNone = true := by
  unfold collectEmptyPositions
  rw [List.mem_flatMap]
  constructor
  · rintro ⟨r, hr, hin⟩
    rw [List.mem_filterMap] at hin
    obtain ⟨c, hc, hcell⟩ := hin
    by_cases hemp : ((b.getD r []).getD c none).isNone = true
    · rw [if_pos hemp] at hcell
      obtain rfl := (Option.some.inj hcell).symm
      exact ⟨List.mem_range.mp hr, List.mem_range.mp hc, hemp⟩
    · rw [if_neg hemp] at hcell
      cases hcell
  · rintro ⟨h1, h2, h3⟩
    exact ⟨p.1, List.mem_range.mpr h1,
      List.mem_filterMap.mpr ⟨p.2, List.mem_range.mpr h2, by rw [if_pos h3]⟩⟩

theorem mem_emptyChunk_fst {b : Board} {r cols : Nat} {p : Nat × Nat}
    (hp : p ∈ (List.range cols).filterMap (fun c =>
      if ((b.getD r []).getD c none).isNone = true then some (r, c) else none)) :
    p.1 = r := by
  rw [List.mem_filterMap] at hp
  obtain ⟨c, _, hc⟩ := hp
  by_cases hb : ((b.getD r []).getD c none).isNone = true
  · rw [if_pos hb] at hc
    exact (congrArg Prod.fst (Option.some.inj hc)).symm
  · rw [if_neg hb] at hc
    cases hc

theorem collectEmptyPositions_nodup (b : Board) (rows cols : Nat) :
    (collectEmptyPositions b rows cols).Nodup := by
  unfold collectEmptyPositions
  rw [List.nodup_flatMap]
  constructor
  · intro r _
    apply List.Nodup.filterMap ?_ (List.nodup_range cols)
    intro c c' p hp hp'
    rw [Option.mem_def] at hp hp'
    by_cases h1 : ((b.getD r []).getD c none).isNone = true
    · rw [if_pos h1] at hp
      by_cases h2 : ((b.getD r []).getD c' none).isNone = true
      · rw [if_pos h2] at hp'
        have e1 := Option.some.inj hp
        have e2 := Option.some.inj hp'
        rw [← e2] at e1
        exact (Prod.ext_iff.mp e1).2
      · rw [if_neg h2] at hp'
        cases hp'
    · rw [if_neg h1] at hp
      cases hp
  · apply List.Pairwise.imp ?_ (List.pairwise_lt_range rows)
    intro a a' hlt
    show List.Disjoint _ _
    intro p hp hp'
    have h1 := mem_emptyChunk_fst hp
    have h2 := mem_emptyChunk_fst hp'
    omega

theorem getD_replicate {n : Nat} {x : α} {i : Nat} (h : i < n) (d : α) :
    (List.replicate n x).getD i d = x := by
  rw [List.getD_eq_get?, List.get?_eq_getElem?,
    List.getElem?_eq_getElem (by rw [List.length_replicate]; exact h),
    List.getElem_replicate, Option.getD_some]

theorem collectEmptyPositions_replicate (d1 d2 : Nat) {p : Nat × Nat}
    (h1 : p.1 < d1) (h2 : p.2 < d2) :
    p ∈ collectEmptyPositions (List.replicate d1 (List.replicate d2 (none : Cell))) d1 d2 := by
  refine mem_collectEmptyPositions_iff.mpr ⟨h1, h2, ?_⟩
  rw [getD_replicate h1 [], getD_replicate h2 none]
  rfl

theorem getD_set_self {l : List Cell} {c : Nat} (v : Cell) (hc : c < l.length) :
    (l.set c v).getD c none = v := by
  rw [List.getD_eq_get?, List.get?_set_eq, List.get?_eq_getElem?,
    List.getElem?_eq_getElem hc]
  rfl

theorem rowLen_setCell (b : Board) (r c : Nat) (v : Cell) (r' : Nat) :
    ((setCell b r c v).getD r' []).length = (b.getD r' []).length := by
  by_cases h : r = r'
  · subst h
    by_cases hr : r < b.length
    · rw [getD_setCell_self c v hr, List.length_set]
    · push_neg at hr
      unfold setCell
      rw [List.set_eq_of_length_le hr]
  · rw [getD_setCell_other v h]

theorem cell_setCell_ne_val {b : Board} {r c r' c' : Nat} (v : Cell)
    (hne : r ≠ r' ∨ c ≠ c') :
    ((setCell b r c v).getD r' []).getD c' none = (b.getD r' []).getD c' none := by
  rcases hne with hr | hc
  · rw [getD_setCell_other v hr]
  · by_cases hr : r = r'
    · subst hr
      by_cases hrlen : r < b.length
      · rw [getD_setCell_self c v hrlen, List.getD_eq_get?, List.get?_set_ne _ _ hc,
          ← List.getD_eq_get?]
      · push_neg at hrlen
        have h1 : (setCell b r c v).getD r [] = b.getD r [] := by
          unfold setCell
          rw [List.set_eq_of_length_le hrlen]
        rw [h1]
    · rw [getD_setCell_other v hr]

theorem colsOf_replicate {d1 d2 : Nat} (h : 0 < d1) :
    colsOf (List.replicate d1 (List.replicate d2 (none : Cell))) = d2 := by
  obtain ⟨m, rfl⟩ := Nat.exists_eq_succ_of_ne_zero (Nat.pos_iff_ne_zero.mp h)
  rw [List.replicate_succ]
  show (List.replicate d2 (none : Cell)).length = d2
  rw [List.length_replicate]

theorem firstConnectablePair_some_spec (stateB : Board) :
    ∀ {l : List (Nat × Nat)} {p q : Nat × Nat},
      firstConnectablePair stateB l = some (p, q) →
      p ∈ l ∧ q ∈ l ∧ (findPath stateB p.1 p.2 q.1 q.2).isSome = true := by
  intro l
  induction l with
  | nil => intro p q h; cases h
  | cons x xs ih =>
    intro p q h
    have h' : (match xs.find? (fun y => (findPath stateB x.1 x.2 y.1 y.2).isSome) with
        | some y => some (x, y)
        | none => firstConnectablePair stateB xs) = some (p, q) := h
    cases hf : xs.find? (fun y => (findPath stateB x.1 x.2 y.1 y.2).isSome) with
    | some y =>
      rw [hf] at h'
      have e := Option.some.inj h'
      have hx : x = p := congrArg Prod.fst e
      have hy : y = q := congrArg Prod.snd e
      subst hx
      subst hy
      have hfp := List.find?_some hf
      exact ⟨List.mem_cons_self x xs,
        List.mem_cons_of_mem x (List.mem_of_find?_eq_some hf), hfp⟩
    | none =>
      rw [hf] at h'
      obtain ⟨h1, h2, h3⟩ := ih h'
      exact ⟨List.mem_cons_of_mem x h1, List.mem_cons_of_mem x h2, h3⟩

theorem firstConnectablePair_some_ne (stateB : Board) :
    ∀ {l : List (Nat × Nat)} {p q : Nat × Nat}, l.Nodup →
      firstConnectablePair stateB l = some (p, q) → p ≠ q := by
  intro l
  induction l with
  | nil => intro p q _ h; cases h
  | cons x xs ih =>
    intro p q hnd h
    have h' : (match xs.find? (fun y => (findPath stateB x.1 x.2 y.1 y.2).isSome) with
        | some y => some (x, y)
        | none => firstConnectablePair stateB xs) = some (p, q) := h
    cases hf : xs.find? (fun y => (findPath stateB x.1 x.2 y.1 y.2).isSome) with
    | some y =>
      rw [hf] at h'
      have e := Option.some.inj h'
      have hx : x = p := congrArg Prod.fst e
      have hy : y = q := congrArg Prod.snd e
      subst hx
      subst hy
      intro hpq
      exact (List.nodup_cons.mp hnd).1 (hpq ▸ List.mem_of_find?_eq_some hf)
    | none =>
      rw [hf] at h'
      exact ih (List.nodup_cons.mp hnd).2 h'

theorem firstConnectablePair_isSome (stateB : Board) :
    ∀ {l : List (Nat × Nat)} {x y : Nat × Nat}, x ∈ l → y ∈ l → x ≠ y →
      (findPath stateB x.1 x.2 y.1 y.2).isSome = true →
      (firstConnectablePair stateB l).isSome = true := by
  intro l
  induction l with
  | nil => intro x y hx _ _ _; cases hx
  | cons a t ih =>
    intro x y hx hy hne hconn
    show (match t.find? (fun z : Nat × Nat => (findPath stateB a.1 a.2 z.1 z.2).isSome) with
        | some z => some (a, z)
        | none => firstConnectablePair stateB t).isSome = true
    cases hf : t.find? (fun z : Nat × Nat => (findPath stateB a.1 a.2 z.1 z.2).isSome) with
    | some z => rfl
    | none =>
      have hnone := List.find?_eq_none.mp hf
      rcases List.mem_cons.mp hx with rfl | hx'
      · have hy' : y ∈ t := by
          rcases List.mem_cons.mp hy with rfl | h
          · exact absurd rfl hne
          · exact h
        exact absurd hconn (hnone y hy')
      · rcases List.mem_cons.mp hy with rfl | hy'
        · have hconn' : (findPath stateB y.1 y.2 x.1 x.2).isSome = true := by
            rw [findPath_isSome_symm]
            exact hconn
          exact absurd hconn' (hnone x hx')
        · exact ih hx' hy' hne hconn

theorem findBestPositionsForPair_mem (stateB b : Board) (rows cols : Nat) (js : List Nat) :
    ∀ z ∈ findBestPositionsForPair stateB b rows cols js,
      z ∈ collectEmptyPositions b rows cols := by
  intro z hz
  have hz' : z ∈ (match firstConnectablePair stateB
      (fisherYates (collectEmptyPositions b rows cols) js) with
    | some (p, q) => [p, q]
    | none => (fisherYates (collectEmptyPositions b rows cols) js).take 2) := hz
  have hperm := fisherYates_perm (collectEmptyPositions b rows cols) js
  cases hfc : firstConnectablePair stateB
      (fisherYates (collectEmptyPositions b rows cols) js) with
  | some pq =>
    obtain ⟨p, q⟩ := pq
    rw [hfc] at hz'
    have hz2 : z ∈ [p, q] := hz'
    have hspec := firstConnectablePair_some_spec stateB hfc
    rcases List.mem_cons.mp hz2 with rfl | hz3
    · exact hperm.mem_iff.mp hspec.1
    · rw [List.mem_singleton] at hz3
      subst hz3
      exact hperm.mem_iff.mp hspec.2.1
  | none =>
    rw [hfc] at hz'
    have hz2 : z ∈ (fisherYates (collectEmptyPositions b rows cols) js).take 2 := hz'
    exact hperm.mem_iff.mp (List.mem_of_mem_take hz2)

theorem findBestPositionsForPair_conn (stateB b : Board) (rows cols : Nat) (js : List Nat)
    {x y : Nat × Nat} (hx : x ∈ collectEmptyPositions b rows cols)
    (hy : y ∈ collectEmptyPositions b rows cols) (hne : x ≠ y)
    (hconn : (findPath stateB x.1 x.2 y.1 y.2).isSome = true) :
    ∃ p q, findBestPositionsForPair stateB b rows cols js = [p, q] ∧ p ≠ q ∧
      p ∈ collectEmptyPositions b rows cols ∧ q ∈ collectEmptyPositions b rows cols ∧
      (findPath stateB p.1 p.2 q.1 q.2).isSome = true := by
  have hperm := fisherYates_perm (collectEmptyPositions b rows cols) js
  have hsome := firstConnectablePair_isSome stateB
    (hperm.mem_iff.mpr hx) (hperm.mem_iff.mpr hy) hne hconn
  cases hfc : firstConnectablePair stateB
      (fisherYates (collectEmptyPositions b rows cols) js) with
  | none =>
    rw [hfc] at hsome
    exact Bool.noConfusion hsome
  | some pq =>
    obtain ⟨p, q⟩ := pq
    have hspec := firstConnectablePair_some_spec stateB hfc
    have hne' := firstConnectablePair_some_ne stateB
      (hperm.nodup_iff.mpr (collectEmptyPositions_nodup b rows cols)) hfc
    refine ⟨p, q, ?_, hne', hperm.mem_iff.mp hspec.1, hperm.mem_iff.mp hspec.2.1,
      hspec.2.2⟩
    show (match firstConnectablePair stateB
        (fisherYates (collectEmptyPositions b rows cols) js) with
      | some (p, q) => [p, q]
      | none => (fisherYates (collectEmptyPositions b rows cols) js).take 2) = [p, q]
    rw [hfc]

theorem intelligentStep_applied (stateB : Board) (d1 d2 : Nat) (bd : Board)
    (jsx : List Nat) (t : Tile) :
    intelligentStep stateB (d1, d2) (bd, jsx) t =
      (match findBestPositionsForPair stateB bd d1 d2 jsx with
        | p :: q :: _ =>
          (setCell (setCell bd p.1 p.2 (some t)) q.1 q.2 (some t),
            jsx.drop ((collectEmptyPositions bd d1 d2).length - 1))
        | _ => (bd, jsx.drop ((collectEmptyPositions bd d1 d2).length - 1))) := rfl

theorem intelligentStep_preserves_cell (stateB : Board) (d1 d2 : Nat) (bd : Board)
    (jsx : List Nat) (t : Tile) {pos : Nat × Nat} {t0 : Tile}
    (hcell : (bd.getD pos.1 []).getD pos.2 none = some t0) :
    (((intelligentStep stateB (d1, d2) (bd, jsx) t).1).getD pos.1 []).getD pos.2 none =
      some t0 := by
  rw [intelligentStep_applied]
  cases hres : findBestPositionsForPair stateB bd d1 d2 jsx with
  | nil => exact hcell
  | cons p rest =>
    cases rest with
    | nil => exact hcell
    | cons q tail =>
      have hp : p ∈ collectEmptyPositions bd d1 d2 :=
        findBestPositionsForPair_mem stateB bd d1 d2 jsx p
          (hres ▸ List.mem_cons_self p (q :: tail))
      have hq : q ∈ collectEmptyPositions bd d1 d2 :=
        findBestPositionsForPair_mem stateB bd d1 d2 jsx q
          (hres ▸ List.mem_cons_of_mem p (List.mem_cons_self q tail))
      have hpne : p.1 ≠ pos.1 ∨ p.2 ≠ pos.2 := by
        by_contra hcon
        push_neg at hcon
        have hnone := (mem_collectEmptyPositions_iff.mp hp).2.2
        rw [hcon.1, hcon.2, hcell] at hnone
        exact Bool.noConfusion hnone
      have hqne : q.1 ≠ pos.1 ∨ q.2 ≠ pos.2 := by
        by_contra hcon
        push_neg at hcon
        have hnone := (mem_collectEmptyPositions_iff.mp hq).2.2
        rw [hcon.1, hcon.2, hcell] at hnone
        exact Bool.noConfusion hnone
      show (((setCell (setCell bd p.1 p.2 (some t)) q.1 q.2 (some t)).getD
        pos.1 []).getD pos.2 none) = some t0
      rw [cell_setCell_ne_val (some t) hqne, cell_setCell_ne_val (some t) hpne]
      exact hcell

theorem intelligentStep_shape (stateB : Board) (d1 d2 : Nat) (bd : Board)
    (jsx : List Nat) (t : Tile) :
    rowsOf (intelligentStep stateB (d1, d2) (bd, jsx) t).1 = rowsOf bd ∧
      colsOf (intelligentStep stateB (d1, d2) (bd, jsx) t).1 = colsOf bd := by
  rw [intelligentStep_applied]
  cases hres : findBestPositionsForPair stateB bd d1 d2 jsx with
  | nil => exact ⟨rfl, rfl⟩
  | cons p rest =>
    cases rest with
    | nil => exact ⟨rfl, rfl⟩
    | cons q tail =>
      constructor
      · show (setCell (setCell bd p.1 p.2 (some t)) q.1 q.2 (some t)).length = bd.length
        unfold setCell
        rw [List.length_set, List.length_set]
      · show colsOf (setCell (setCell bd p.1 p.2 (some t)) q.1 q.2 (some t)) = colsOf bd
        rw [colsOf_setCell, colsOf_setCell]

theorem foldl_preserves {f : β → α → β} {P : β → Prop}
    (hstep : ∀ b a, P b → P (f b a)) :
    ∀ (l : List α) (init : β), P init → P (l.foldl f init) := by
  intro l
  induction l with
  | nil => intro init h; exact h
  | cons a t ih =>
    intro init h
    exact ih (f init a) (hstep init a h)

theorem intelligent_fold_solvable (stateB : Board) (d1 d2 : Nat) (h2 : 2 ≤ d1 * d2)
    (t : Tile) (rest : List Tile) (js1 : List Nat) :
    isBoardSolvable stateB
      (((t :: rest).foldl (intelligentStep stateB (d1, d2))
        (List.replicate d1 (List.replicate d2 (none : Cell)), js1)).1) = true := by
  have hd1pos : 0 < d1 := by
    rcases Nat.eq_zero_or_pos d1 with h | h
    · rw [h, Nat.zero_mul] at h2; omega
    · exact h
  have hd2pos : 0 < d2 := by
    rcases Nat.eq_zero_or_pos d2 with h | h
    · rw [h, Nat.mul_zero] at h2; omega
    · exact h
  have hkey : ∃ x y : Nat × Nat, x.1 < d1 ∧ x.2 < d2 ∧ y.1 < d1 ∧ y.2 < d2 ∧ x ≠ y ∧
      (findPath stateB x.1 x.2 y.1 y.2).isSome = true := by
    rcases Nat.lt_or_ge d2 2 with hc | hc
    · have hd2one : d2 = 1 := by omega
      have hd1two : 2 ≤ d1 := by
        rw [hd2one, Nat.mul_one] at h2
        exact h2
      exact ⟨(0, 0), (1, 0), by omega, by omega, by omega, by omega, by decide,
        findPath_adj_col_nat stateB 0 0⟩
    · exact ⟨(0, 0), (0, 1), hd1pos, by omega, hd1pos, by omega, by decide,
        findPath_adj_row_nat stateB 0 0⟩
  obtain ⟨x, y, hx1, hx2, hy1, hy2, hxy, hconn⟩ := hkey
  have hxmem : x ∈ collectEmptyPositions
      (List.replicate d1 (List.replicate d2 (none : Cell))) d1 d2 :=
    collectEmptyPositions_replicate d1 d2 hx1 hx2
  have hymem : y ∈ collectEmptyPositions
      (List.replicate d1 (List.replicate d2 (none : Cell))) d1 d2 :=
    collectEmptyPositions_replicate d1 d2 hy1 hy2
  obtain ⟨p, q, heq, hpq, hpmem, hqmem, hpconn⟩ :=
    findBestPositionsForPair_conn stateB
      (List.replicate d1 (List.replicate d2 (none : Cell))) d1 d2 js1 hxmem hymem hxy hconn
  obtain ⟨hp1, hp2, -⟩ := mem_collectEmptyPositions_iff.mp hpmem
  obtain ⟨hq1, hq2, -⟩ := mem_collectEmptyPositions_iff.mp hqmem
  have hb1 : intelligentStep stateB (d1, d2)
      (List.replicate d1 (List.replicate d2 (none : Cell)), js1) t =
      (setCell (setCell (List.replicate d1 (List.replicate d2 (none : Cell)))
          p.1 p.2 (some t)) q.1 q.2 (some t),
       js1.drop ((collectEmptyPositions
          (List.replicate d1 (List.replicate d2 (none : Cell))) d1 d2).length - 1)) := by
    rw [intelligentStep_applied, heq]
  have hlen0 : (List.replicate d1 (List.replicate d2 (none : Cell))).length = d1 := by
    rw [List.length_replicate]
  have hrow0 : ∀ r, r < d1 →
      (List.replicate d1 (List.replicate d2 (none : Cell))).getD r [] =
        List.replicate d2 (none : Cell) := by
    intro r hr
    exact getD_replicate hr []
  have hq1' : q.1 < (setCell (List.replicate d1 (List.replicate d2 (none : Cell)))
      p.1 p.2 (some t)).length := by
    unfold setCell
    rw [List.length_set, List.length_replicate]
    exact hq1
  have hrowq : ((setCell (List.replicate d1 (List.replicate d2 (none : Cell)))
      p.1 p.2 (some t)).getD q.1 []).length = d2 := by
    rw [rowLen_setCell, hrow0 q.1 hq1, List.length_replicate]
  have hcellq : (((setCell (setCell (List.replicate d1 (List.replicate d2 (none : Cell)))
      p.1 p.2 (some t)) q.1 q.2 (some t)).getD q.1 []).getD q.2 none) = some t := by
    rw [getD_setCell_self q.2 (some t) hq1']
    exact getD_set_self (some t) (by rw [hrowq]; exact hq2)
  have hqp : q.1 ≠ p.1 ∨ q.2 ≠ p.2 := by
    by_contra hcon
    push_neg at hcon
    exact hpq (Prod.ext hcon.1.symm hcon.2.symm)
  have hp1' : p.1 < (List.replicate d1 (List.replicate d2 (none : Cell))).length := by
    rw [hlen0]
    exact hp1
  have hcellp : (((setCell (setCell (List.replicate d1 (List.replicate d2 (none : Cell)))
      p.1 p.2 (some t)) q.1 q.2 (some t)).getD p.1 []).getD p.2 none) = some t := by
    rw [cell_setCell_ne_val (some t) hqp, getD_setCell_self p.2 (some t) hp1']
    exact getD_set_self (some t)
      (by rw [hrow0 p.1 hp1, List.length_replicate]; exact hp2)
  have hb1rows : rowsOf (setCell (setCell (List.replicate d1
      (List.replicate d2 (none : Cell))) p.1 p.2 (some t)) q.1 q.2 (some t)) = d1 := by
    unfold rowsOf setCell
    rw [List.length_set, List.length_set, List.length_replicate]
  have hb1cols : colsOf (setCell (setCell (List.replicate d1
      (List.replicate d2 (none : Cell))) p.1 p.2 (some t)) q.1 q.2 (some t)) = d2 := by
    rw [colsOf_setCell, colsOf_setCell, colsOf_replicate hd1pos]
  have hstep : ∀ (acc : Board × List Nat) (t' : Tile),
      ((acc.1.getD p.1 []).getD p.2 none = some t ∧
        (acc.1.getD q.1 []).getD q.2 none = some t ∧
        rowsOf acc.1 = d1 ∧ colsOf acc.1 = d2) →
      (((intelligentStep stateB (d1, d2) acc t').1.getD p.1 []).getD p.2 none = some t ∧
        ((intelligentStep stateB (d1, d2) acc t').1.getD q.1 []).getD q.2 none = some t ∧
        rowsOf (intelligentStep stateB (d1, d2) acc t').1 = d1 ∧
        colsOf (intelligentStep stateB (d1, d2) acc t').1 = d2) := by
    rintro ⟨bd, jsx⟩ t' ⟨hc1, hc2, hr, hcl⟩
    refine ⟨intelligentStep_preserves_cell stateB d1 d2 bd jsx t' hc1,
      intelligentStep_preserves_cell stateB d1 d2 bd jsx t' hc2, ?_, ?_⟩
    · rw [(intelligentStep_shape stateB d1 d2 bd jsx t').1]
      exact hr
    · rw [(intelligentStep_shape stateB d1 d2 bd jsx t').2]
      exact hcl
  have hfold := @foldl_preserves (Board × List Nat) Tile
    (intelligentStep stateB (d1, d2))
    (fun acc =>
      (acc.1.getD p.1 []).getD p.2 none = some t ∧
      (acc.1.getD q.1 []).getD q.2 none = some t ∧
      rowsOf acc.1 = d1 ∧ colsOf acc.1 = d2)
    hstep rest
    (intelligentStep stateB (d1, d2)
      (List.replicate d1 (List.replicate d2 (none : Cell)), js1) t)
    (by rw [hb1]; exact ⟨hcellp, hcellq, hb1rows, hb1cols⟩)
  rw [List.foldl_cons]
  obtain ⟨hfp, hfq, hfr, hfc⟩ := hfold
  exact isBoardSolvable_of_pair stateB _ hpq
    (by rw [hfr]; exact hp1) (by rw [hfc]; exact hp2)
    (by rw [hfr]; exact hq1) (by rw [hfc]; exact hq2)
    hfp hfq hpconn

theorem generateIntelligentBoard_eq (stateB : Board) (size kinds : Nat) (js : List Nat) :
    generateIntelligentBoard stateB size kinds js =
      ((fisherYates ((List.range (size / 2)).map (fun i => i % kinds)) js).foldl
        (intelligentStep stateB (getBoardDimensions size))
        (List.replicate (getBoardDimensions size).1
          (List.replicate (getBoardDimensions size).2 (none : Cell)),
         js.drop (size / 2 - 1))).1 := rfl

theorem generateIntelligentBoard_solvable (stateB : Board) (size kinds : Nat)
    (js : List Nat) (h2 : 2 ≤ size) :
    isBoardSolvable stateB (generateIntelligentBoard stateB size kinds js) = true := by
  have hne : fisherYates ((List.range (size / 2)).map (fun i => i % kinds)) js ≠ [] := by
    intro hnil
    have hlen := congrArg List.length hnil
    rw [fisherYates_length, List.length_map, List.length_range, List.length_nil] at hlen
    omega
  obtain ⟨t, rest, heq⟩ := List.exists_cons_of_ne_nil hne
  rw [generateIntelligentBoard_eq, heq]
  exact intelligent_fold_solvable stateB (getBoardDimensions size).1
    (getBoardDimensions size).2
    (by rw [getBoardDimensions_mul size (by omega)]; exact h2) t rest _

theorem genAttempts_solvable (stateB : Board) (size kinds : Nat) (h2 : 2 ≤ size) :
    ∀ (n : Nat) (js : List Nat),
      isBoardSolvable stateB (genAttempts stateB size kinds n js) = true := by
  intro n
  induction n with
  | zero =>
    intro js
    exact generateIntelligentBoard_solvable stateB size kinds _ h2
  | succ n ih =>
    intro js
    show isBoardSolvable stateB
        (if isBoardSolvable stateB (generateBasicBoard js size kinds) = true
          then generateBasicBoard js size kinds
          else genAttempts stateB size kinds n (js.drop (2 * (size / 2) - 1))) = true
    by_cases h : isBoardSolvable stateB (generateBasicBoard js size kinds) = true
    · rw [if_pos h]
      exact h
    · rw [if_neg h]
      exact ih _

/-- **C1 (amended).**  For every even positive `size`, every `kinds`, every
`maxAttempts` and every random stream: `generateSolvableBoard` terminates and
returns a board the solvability oracle accepts — the random phase re-tests
every attempt, and the `generateIntelligentBoard` fallback always places its
first pair at two positions `findPath` connects on the same state board the
oracle consults, so even its unchecked output passes the oracle.  The store's
`generateGameBoard` terminates and returns a board filling its
`rows × cols = size` grid, but performs no solvability check (see the
counterexample). -/
theorem generators_amended_spec (stateB : Board) (size kinds maxAttempts : Nat)
    (js : List Nat) (heven : Even size) (hpos : 0 < size) :
    isBoardSolvable stateB (generateSolvableBoard stateB size kinds maxAttempts js) = true ∧
    countTiles (generateGameBoard js size kinds) = size :=
  ⟨genAttempts_solvable stateB size kinds
      (by obtain ⟨k, hk⟩ := heven; omega) (maxAttempts - 1) js,
    countTiles_generateGameBoard js size kinds heven hpos⟩

/-- Witness for the amended C1 at `size = 2`, `kinds = 3`, one attempt, the
empty state board and the empty stream. -/
theorem generators_amended_spec_witness :
    Even 2 ∧ 0 < 2 ∧
      isBoardSolvable [] (generateSolvableBoard [] 2 3 1 []) = true ∧
      countTiles (generateGameBoard [] 2 3) = 2 :=
  ⟨⟨1, rfl⟩, by decide,
    (generators_amended_spec [] 2 3 1 [] ⟨1, rfl⟩ (by decide)).1,
    (generators_amended_spec [] 2 3 1 [] ⟨1, rfl⟩ (by decide)).2⟩

end LinkGame
